import Mathlib

/-!
Verification of the NodeTunnel relay server core against its specification.

The Rust sources are shallowly embedded:
* machine integers become Nat / Int with explicit reductions modulo 2^w at
  the points where the source casts or wraps;
* HashMap / HashSet become association lists (insertion replaces the entry
  for an existing key; iteration order of a Rust HashMap is unspecified, so
  no claim below depends on the order our lists produce);
* Rust String values are represented by their UTF-8 byte sequences
  (List Nat); String::from_utf8 applied to the exact bytes of a valid
  string succeeds and is the identity on those bytes, so it is elided;
* fallible operations return Except / Option.

set_option note: proofs use only core tactics plus omega / simp / decide.
-/

set_option maxRecDepth 10000

/-! ## Association-list maps (model of std::collections::HashMap) -/

def alookup {K V : Type} [DecidableEq K] (k : K) : List (K × V) → Option V
  | [] => none
  | (k1, v) :: rest => if k1 = k then some v else alookup k rest

/-- Model of HashMap::remove (the map part; the returned value is alookup). -/
def aerase {K V : Type} [DecidableEq K] (k : K) : List (K × V) → List (K × V)
  | [] => []
  | e :: rest => if e.1 = k then aerase k rest else e :: aerase k rest

/-- Model of HashMap::insert: replaces any existing entry for the key. -/
def ainsert {K V : Type} [DecidableEq K] (k : K) (v : V) (m : List (K × V)) : List (K × V) :=
  (k, v) :: aerase k m

/-- Keys of an association list (model of HashMap::keys, some iteration order). -/
def akeys {K V : Type} (m : List (K × V)) : List K := m.map (fun e => e.1)

/-- Model of HashSet<String>::remove. -/
def sremove (s : String) : List String → List String
  | [] => []
  | x :: rest => if x = s then sremove s rest else x :: sremove s rest

instance {ε α : Type} [DecidableEq ε] [DecidableEq α] : DecidableEq (Except ε α) := fun a b =>
  match a, b with
  | .error e1, .error e2 => decidable_of_iff (e1 = e2) (by simp)
  | .ok v1, .ok v2 => decidable_of_iff (v1 = v2) (by simp)
  | .error _, .ok _ => isFalse (fun h => Except.noConfusion h)
  | .ok _, .error _ => isFalse (fun h => Except.noConfusion h)

/-! ## src/protocol/serialize.rs and src/protocol/packet.rs (wire codec)

Byte buffers are List Nat with entries < 256 produced by the encoders.
The push functions of serialize.rs append to a buffer; here each returns
the byte string it appends and call sites concatenate. -/

abbrev Bytes := List Nat

/-- Model of src/protocol/error.rs ProtocolError. The source formats the
NotEnoughBytes context into a message string; here the numbers (needed
length as the i32 the source would print, available length) are kept
directly. -/
inductive ProtocolError : Type
  | EmptyPacket
  | UnknownPacketType (b : Nat)
  | NotEnoughBytes (need : Int) (has : Nat)
  | NegativeVectorLength
deriving DecidableEq, Repr

namespace Protocol

/-- Big-endian 4-byte encoding of n < 2^32 (i32::to_be_bytes of the two's
complement representative). -/
def natToBE4 (n : Nat) : Bytes :=
  [n / 16777216 % 256, n / 65536 % 256, n / 256 % 256, n % 256]

/-- Two's complement representative of an i32 value as a Nat < 2^32. -/
def i32Rep (v : Int) : Nat := (v % 4294967296).toNat

/-- Rust cast usize -> i32 (truncating; the source writes len as i32). -/
def lenToI32 (len : Nat) : Int :=
  let m := len % 4294967296
  if m < 2147483648 then (m : Int) else (m : Int) - 4294967296

/-- Rust cast i32 -> usize (sign-extend then reinterpret, 64-bit target). -/
def i32ToUsize (v : Int) : Nat := (v % 18446744073709551616).toNat

/-- serialize.rs push_i32. -/
def push_i32 (v : Int) : Bytes := natToBE4 (i32Rep v)

/-- serialize.rs read_i32. -/
def read_i32 : Bytes → Except ProtocolError (Int × Bytes)
  | b0 :: b1 :: b2 :: b3 :: rest =>
    let n := b0 * 16777216 + b1 * 65536 + b2 * 256 + b3
    let value : Int := if n < 2147483648 then (n : Int) else (n : Int) - 4294967296
    .ok (value, rest)
  | bytes => .error (.NotEnoughBytes 4 bytes.length)

/-- serialize.rs push_bool (bool encoded as i32 1 / 0). -/
def push_bool (v : Bool) : Bytes := push_i32 (if v then 1 else 0)

/-- serialize.rs read_bool (non-zero means true). -/
def read_bool (bytes : Bytes) : Except ProtocolError (Bool × Bytes) :=
  match read_i32 bytes with
  | .error e => .error e
  | .ok (value, rest) => .ok (decide (value ≠ 0), rest)

/-- serialize.rs push_string: i32 length prefix then the UTF-8 bytes. -/
def push_string (s : Bytes) : Bytes := push_i32 (lenToI32 s.length) ++ s

/-- serialize.rs read_string. String::from_utf8 is elided (strings are
modelled as their UTF-8 bytes, on which it is the identity). -/
def read_string (bytes : Bytes) : Except ProtocolError (Bytes × Bytes) :=
  match read_i32 bytes with
  | .error e => .error e
  | .ok (len, rest) =>
    if rest.length < i32ToUsize len then .error (.NotEnoughBytes len rest.length)
    else .ok (rest.take (i32ToUsize len), rest.drop (i32ToUsize len))

/-- Modelled from the spec: push_u64 (imported by packet.rs from
serialize.rs but absent from src/): 8 bytes, big-endian (spec section 4.A). -/
def push_u64 (v : Nat) : Bytes :=
  let n := v % 18446744073709551616
  [n / 72057594037927936 % 256, n / 281474976710656 % 256,
   n / 1099511627776 % 256, n / 4294967296 % 256,
   n / 16777216 % 256, n / 65536 % 256, n / 256 % 256, n % 256]

/-- Modelled from the spec: read_u64 (absent from src/): 8 bytes big-endian. -/
def read_u64 : Bytes → Except ProtocolError (Nat × Bytes)
  | b0 :: b1 :: b2 :: b3 :: b4 :: b5 :: b6 :: b7 :: rest =>
    .ok (b0 * 72057594037927936 + b1 * 281474976710656 +
         b2 * 1099511627776 + b3 * 4294967296 +
         b4 * 16777216 + b5 * 65536 + b6 * 256 + b7, rest)
  | bytes => .error (.NotEnoughBytes 8 bytes.length)

/-- packet.rs RoomInfo (wire-level: fields id, metadata). -/
structure RoomInfo : Type where
  id : Bytes
  metadata : Bytes
deriving DecidableEq, Repr

/-- serialize.rs read_room_info. -/
def read_room_info (bytes : Bytes) : Except ProtocolError (RoomInfo × Bytes) :=
  match read_string bytes with
  | .error e => .error e
  | .ok (id, r) =>
    match read_string r with
    | .error e => .error e
    | .ok (metadata, r2) => .ok (⟨id, metadata⟩, r2)

/-- The element loop of serialize.rs read_vec_room_info (n iterations). -/
def read_room_infos : Nat → Bytes → Except ProtocolError (List RoomInfo × Bytes)
  | 0, rest => .ok ([], rest)
  | n + 1, rest =>
    match read_room_info rest with
    | .error e => .error e
    | .ok (room, r) =>
      match read_room_infos n r with
      | .error e => .error e
      | .ok (rooms, r2) => .ok (room :: rooms, r2)

/-- serialize.rs read_vec_room_info. -/
def read_vec_room_info (bytes : Bytes) : Except ProtocolError (List RoomInfo × Bytes) :=
  match read_i32 bytes with
  | .error e => .error e
  | .ok (len, rest) =>
    if len < 0 then .error .NegativeVectorLength
    else read_room_infos len.toNat rest

/-- serialize.rs push_vec_room_info. -/
def push_vec_room_info (rooms : List RoomInfo) : Bytes :=
  push_i32 (lenToI32 rooms.length) ++
    (rooms.map (fun room => push_string room.id ++ push_string room.metadata)).flatten

/-! Modelled from the spec: the opcode constants of crate::protocol::ids
(the module is imported by packet.rs but absent from src/). The spec fixes
the set of opcodes and requires one stable canonical assignment of distinct
bytes; the concrete values below are such an assignment. -/

def AUTHENTICATE : Nat := 1
def CLIENT_AUTHENTICATED : Nat := 2
def CREATE_ROOM : Nat := 3
def JOIN_ROOM : Nat := 4
def CONNECTED_TO_ROOM : Nat := 5
def PEER_JOIN_ATTEMPT : Nat := 6
def PEER_JOINED : Nat := 7
def PEER_LEFT : Nat := 8
def GAME_DATA : Nat := 9
def FORCE_DISCONNECT : Nat := 10
def ERROR_PACKET : Nat := 11
def REQ_ROOMS : Nat := 12
def GET_ROOMS : Nat := 13
def UPDATE_ROOM : Nat := 14
def JOIN_RES : Nat := 15

/-- packet.rs PacketType. Strings are their UTF-8 bytes, u64 fields Nat,
i32 fields Int. -/
inductive PacketType : Type
  | Authenticate (app_id : Bytes) (version : Bytes)
  | ClientAuthenticated
  | CreateRoom (is_public : Bool) (metadata : Bytes)
  | ReqRooms
  | GetRooms (rooms : List RoomInfo)
  | UpdateRoom (room_id : Bytes) (metadata : Bytes)
  | ReqJoin (room_id : Bytes) (metadata : Bytes)
  | JoinRes (target_id : Nat) (room_id : Bytes) (allowed : Bool)
  | ConnectedToRoom (room_id : Bytes) (peer_id : Int)
  | PeerJoinAttempt (target_id : Nat) (metadata : Bytes)
  | PeerJoinedRoom (peer_id : Int)
  | PeerLeftRoom (peer_id : Int)
  | GameData (from_peer : Int) (data : Bytes)
  | ForceDisconnect
  | Error (error_code : Int) (error_message : Bytes)
deriving DecidableEq, Repr

/-- packet.rs PacketType::from_bytes. The Rust match on opcode constants is
translated to an if-chain in source arm order. -/
def PacketType.from_bytes (bytes : Bytes) : Except ProtocolError PacketType :=
  match bytes with
  | [] => .error .EmptyPacket
  | packet_id :: rest =>
    if packet_id = AUTHENTICATE then
      match read_string rest with
      | .error e => .error e
      | .ok (app_id, r) =>
        match read_string r with
        | .error e => .error e
        | .ok (version, _) => .ok (.Authenticate app_id version)
    else if packet_id = CLIENT_AUTHENTICATED then .ok .ClientAuthenticated
    else if packet_id = CREATE_ROOM then
      match read_bool rest with
      | .error e => .error e
      | .ok (is_public, r) =>
        let metadata := match read_string r with
          | .ok (name, _) => name
          | .error _ => []
        .ok (.CreateRoom is_public metadata)
    else if packet_id = JOIN_ROOM then
      match read_string rest with
      | .error e => .error e
      | .ok (room_id, r) =>
        match read_string r with
        | .error e => .error e
        | .ok (metadata, _) => .ok (.ReqJoin room_id metadata)
    else if packet_id = CONNECTED_TO_ROOM then
      match read_string rest with
      | .error e => .error e
      | .ok (room_id, r) =>
        match read_i32 r with
        | .error e => .error e
        | .ok (peer_id, _) => .ok (.ConnectedToRoom room_id peer_id)
    else if packet_id = PEER_JOIN_ATTEMPT then
      match read_u64 rest with
      | .error e => .error e
      | .ok (target_id, r) =>
        match read_string r with
        | .error e => .error e
        | .ok (metadata, _) => .ok (.PeerJoinAttempt target_id metadata)
    else if packet_id = PEER_JOINED then
      match read_i32 rest with
      | .error e => .error e
      | .ok (peer_id, _) => .ok (.PeerJoinedRoom peer_id)
    else if packet_id = PEER_LEFT then
      match read_i32 rest with
      | .error e => .error e
      | .ok (peer_id, _) => .ok (.PeerLeftRoom peer_id)
    else if packet_id = GAME_DATA then
      match read_i32 rest with
      | .error e => .error e
      | .ok (peer_id, r) => .ok (.GameData peer_id r)
    else if packet_id = FORCE_DISCONNECT then .ok .ForceDisconnect
    else if packet_id = ERROR_PACKET then
      match read_i32 rest with
      | .error e => .error e
      | .ok (error_code, r) =>
        match read_string r with
        | .error e => .error e
        | .ok (error_message, _) => .ok (.Error error_code error_message)
    else if packet_id = REQ_ROOMS then .ok .ReqRooms
    else if packet_id = GET_ROOMS then
      match read_vec_room_info rest with
      | .error e => .error e
      | .ok (rooms, _) => .ok (.GetRooms rooms)
    else if packet_id = UPDATE_ROOM then
      match read_string rest with
      | .error e => .error e
      | .ok (room_id, r) =>
        match read_string r with
        | .error e => .error e
        | .ok (metadata, _) => .ok (.UpdateRoom room_id metadata)
    else if packet_id = JOIN_RES then
      match read_u64 rest with
      | .error e => .error e
      | .ok (target_id, r) =>
        match read_string r with
        | .error e => .error e
        | .ok (room_id, r2) =>
          match read_bool r2 with
          | .error e => .error e
          | .ok (allowed, _) => .ok (.JoinRes target_id room_id allowed)
    else .error (.UnknownPacketType packet_id)

/-- packet.rs PacketType::to_bytes. -/
def PacketType.to_bytes : PacketType → Bytes
  | .Authenticate app_id version =>
    AUTHENTICATE :: (push_string app_id ++ push_string version)
  | .ClientAuthenticated => [CLIENT_AUTHENTICATED]
  | .CreateRoom is_public metadata =>
    CREATE_ROOM :: (push_bool is_public ++ push_string metadata)
  | .ReqRooms => [REQ_ROOMS]
  | .GetRooms rooms => GET_ROOMS :: push_vec_room_info rooms
  | .UpdateRoom room_id metadata =>
    UPDATE_ROOM :: (push_string room_id ++ push_string metadata)
  | .ReqJoin room_id metadata =>
    JOIN_ROOM :: (push_string room_id ++ push_string metadata)
  | .JoinRes target_id room_id allowed =>
    JOIN_RES :: (push_u64 target_id ++ push_string room_id ++ push_bool allowed)
  | .ConnectedToRoom room_id peer_id =>
    CONNECTED_TO_ROOM :: (push_string room_id ++ push_i32 peer_id)
  | .PeerJoinAttempt target_id metadata =>
    PEER_JOIN_ATTEMPT :: (push_u64 target_id ++ push_string metadata)
  | .PeerJoinedRoom peer_id => PEER_JOINED :: push_i32 peer_id
  | .PeerLeftRoom peer_id => PEER_LEFT :: push_i32 peer_id
  | .GameData from_peer data => GAME_DATA :: (push_i32 from_peer ++ data)
  | .ForceDisconnect => [FORCE_DISCONNECT]
  | .Error error_code error_message =>
    ERROR_PACKET :: (push_i32 error_code ++ push_string error_message)

/-- An i32 value is representable: -2^31 <= v < 2^31. -/
def i32InRange (v : Int) : Bool := -2147483648 ≤ v && v < 2147483648

/-- Field bounds the Rust representation guarantees in-process: string and
vector lengths fit an i32 (the encoder casts usize lengths to i32), u64
fields are below 2^64, i32 fields are in i32 range. -/
def PacketType.wfB : PacketType → Bool
  | .Authenticate app_id version =>
    app_id.length < 2147483648 && version.length < 2147483648
  | .ClientAuthenticated => true
  | .CreateRoom _ metadata => metadata.length < 2147483648
  | .ReqRooms => true
  | .GetRooms rooms =>
    rooms.length < 2147483648 &&
      rooms.all (fun ri => ri.id.length < 2147483648 && ri.metadata.length < 2147483648)
  | .UpdateRoom room_id metadata =>
    room_id.length < 2147483648 && metadata.length < 2147483648
  | .ReqJoin room_id metadata =>
    room_id.length < 2147483648 && metadata.length < 2147483648
  | .JoinRes target_id room_id _ =>
    target_id < 18446744073709551616 && room_id.length < 2147483648
  | .ConnectedToRoom room_id peer_id =>
    room_id.length < 2147483648 && i32InRange peer_id
  | .PeerJoinAttempt target_id metadata =>
    target_id < 18446744073709551616 && metadata.length < 2147483648
  | .PeerJoinedRoom peer_id => i32InRange peer_id
  | .PeerLeftRoom peer_id => i32InRange peer_id
  | .GameData from_peer _ => i32InRange from_peer
  | .ForceDisconnect => true
  | .Error error_code error_message =>
    i32InRange error_code && error_message.length < 2147483648

end Protocol

/-! ## src/transport/reliability.rs (reliable-ordered receiver) -/

namespace Reliability

/-- SequenceNumber::next (u32 wrapping_add 1). Sequence numbers are Nat
values below 2^32. -/
def seqNext (s : Nat) : Nat := (s + 1) % 4294967296

/-- SequenceNumber::is_newer_than: (self - other) wrapping-sub < 2^31. -/
def isNewerThan (a b : Nat) : Bool :=
  (a + 4294967296 - b) % 4294967296 < 2147483648

/-- ReliableReceiver state (the HashMap of buffered packets is an
association list). -/
structure ReliableReceiver where
  highest_seq_received : Nat
  received_packets : List (Nat × Bytes)
  ordered_buffer : List Bytes
  expected_next : Nat
deriving DecidableEq, Repr

def ReliableReceiver.new : ReliableReceiver := ⟨0, [], [], 0⟩

/-- The while-let drain loop of ReliableReceiver::receive. Each iteration
removes one buffered entry, so running with fuel at least the map length
is the loop itself; receive passes exactly that.
Returns (remaining map, final expected_next, drained payloads in order,
sequence numbers acked by the loop in order). -/
def drainGo : Nat → List (Nat × Bytes) → Nat → List (Nat × Bytes) × Nat × List Bytes × List Nat
  | 0, m, e => (m, e, [], [])
  | fuel + 1, m, e =>
    match alookup e m with
    | none => (m, e, [], [])
    | some buffered =>
      let r := drainGo fuel (aerase e m) (seqNext e)
      (r.1, r.2.1, buffered :: r.2.2.1, e :: r.2.2.2)

/-- ReliableReceiver::receive: process an incoming reliable data frame,
returning the new state and the sequence numbers to ACK. -/
def receive (st : ReliableReceiver) (seq : Nat) (data : Bytes) :
    ReliableReceiver × List Nat :=
  let hsr :=
    if isNewerThan seq st.highest_seq_received || st.highest_seq_received = 0
    then seq else st.highest_seq_received
  if seq = st.expected_next then
    let r := drainGo st.received_packets.length st.received_packets (seqNext seq)
    ({ highest_seq_received := hsr,
       received_packets := r.1,
       ordered_buffer := st.ordered_buffer ++ data :: r.2.2.1,
       expected_next := r.2.1 },
     seq :: r.2.2.2)
  else if st.expected_next < seq then
    ({ st with highest_seq_received := hsr,
               received_packets := ainsert seq data st.received_packets },
     [seq])
  else
    ({ st with highest_seq_received := hsr }, [seq])

end Reliability

/-! ## src/udp/common.rs -/

/-- udp/common.rs TransferChannel. -/
inductive TransferChannel : Type
  | Reliable
  | Unreliable
deriving DecidableEq, Repr

/-! ## src/relay: clients.rs, rooms.rs, apps.rs (tenancy directory) -/

namespace Relay

/-- relay/clients.rs ClientState. -/
inductive ClientState : Type
  | Connected
  | Authenticated (app_id : Nat)
  | InRoom (app_id : Nat) (room_id : Nat)
deriving DecidableEq, Repr

/-- relay/clients.rs Client. -/
structure Client where
  state : ClientState
deriving DecidableEq, Repr

def Client.new : Client := ⟨.Connected⟩

/-- relay/clients.rs Clients. -/
structure Clients where
  by_id : List (Nat × Client)
deriving DecidableEq, Repr

def Clients.create (cs : Clients) (id : Nat) : Clients :=
  ⟨ainsert id Client.new cs.by_id⟩

def Clients.get (cs : Clients) (id : Nat) : Option Client :=
  alookup id cs.by_id

/-- Clients::remove: returns the removed client and the new directory. -/
def Clients.removeC (cs : Clients) (id : Nat) : Option Client × Clients :=
  (alookup id cs.by_id, ⟨aerase id cs.by_id⟩)

/-- rooms.rs RoomIds (the join-code generator; the HashSet of live codes
is a list). -/
structure RoomIds where
  used : List String
deriving DecidableEq, Repr

/-- rooms.rs RoomIds::generate. The source draws random 5-character
candidates in an unbounded loop until one is not yet used; the random
stream is an input here, and none models exhausting it (the source would
keep drawing). -/
def RoomIds.generate (ids : RoomIds) : List String → Option (String × RoomIds)
  | [] => none
  | c :: rest =>
    if c ∈ ids.used then ids.generate rest
    else some (c, ⟨c :: ids.used⟩)

/-- rooms.rs RoomIds::free. -/
def RoomIds.free (ids : RoomIds) (id : String) : RoomIds :=
  ⟨sremove id ids.used⟩

/-- rooms.rs Room. Peer (godot) ids are i32; next_godot_id is modelled as
an unbounded Int (the Rust increment aborts on i32 overflow in debug
builds long before the claims below are affected). -/
structure Room where
  id : Nat
  join_code : String
  is_public : Bool
  metadata : String
  host_id : Nat
  client_to_godot : List (Nat × Int)
  godot_to_client : List (Int × Nat)
  next_godot_id : Int
deriving DecidableEq, Repr

/-- rooms.rs Room::new. -/
def Room.new (id : Nat) (join_code : String) (host_id : Nat)
    (is_public : Bool) (metadata : String) : Room :=
  ⟨id, join_code, is_public, metadata, host_id, [], [], 1⟩

/-- rooms.rs Room::add_peer (returns the allocated godot peer id). -/
def Room.add_peer (r : Room) (client_id : Nat) : Int × Room :=
  let godot_pid := r.next_godot_id
  (godot_pid,
   { r with client_to_godot := ainsert client_id godot_pid r.client_to_godot,
            godot_to_client := ainsert godot_pid client_id r.godot_to_client,
            next_godot_id := r.next_godot_id + 1 })

/-- rooms.rs Room::get_clients. -/
def Room.get_clients (r : Room) : List Nat := akeys r.client_to_godot

/-- rooms.rs Room::client_to_gd. -/
def Room.client_to_gd (r : Room) (client_id : Nat) : Option Int :=
  alookup client_id r.client_to_godot

/-- rooms.rs Room::gd_to_client. -/
def Room.gd_to_client (r : Room) (godot_id : Int) : Option Nat :=
  alookup godot_id r.godot_to_client

/-- rooms.rs Room::get_host. -/
def Room.get_host (r : Room) : Nat := r.host_id

/-- rooms.rs Room::remove_peer. -/
def Room.remove_peer (r : Room) (renet_id : Nat) : Room :=
  match alookup renet_id r.client_to_godot with
  | none => r
  | some peer_id =>
    { r with client_to_godot := aerase renet_id r.client_to_godot,
             godot_to_client := aerase peer_id r.godot_to_client }

/-- rooms.rs Rooms (per-App room directory; note each App owns one). -/
structure Rooms where
  by_id : List (Nat × Room)
  jc_to_id : List (String × Nat)
  next_id : Nat
  join_codes : RoomIds
deriving DecidableEq, Repr

def Rooms.mkNew : Rooms := ⟨[], [], 0, ⟨[]⟩⟩

/-- rooms.rs Rooms::create. Returns the new room id and directory; the
created room is the by_id entry at that id (the source hands back the
or_insert entry reference). cands is the random candidate stream for the
join-code generator. -/
def Rooms.create (rs : Rooms) (host_id : Nat) (is_public : Bool)
    (metadata : String) (cands : List String) : Option (Nat × Rooms) :=
  match rs.join_codes.generate cands with
  | none => none
  | some (join_code, jcs) =>
    let room_id := rs.next_id
    let room := Room.new room_id join_code host_id is_public metadata
    some (room_id,
      { by_id := if (alookup room_id rs.by_id).isSome then rs.by_id
                 else ainsert room_id room rs.by_id,
        jc_to_id := ainsert join_code room_id rs.jc_to_id,
        next_id := rs.next_id + 1,
        join_codes := jcs })

/-- rooms.rs Rooms::get. -/
def Rooms.get (rs : Rooms) (id : Nat) : Option Room := alookup id rs.by_id

/-- rooms.rs Rooms::get_by_jc. -/
def Rooms.get_by_jc (rs : Rooms) (jc : String) : Option Room :=
  match alookup jc rs.jc_to_id with
  | none => none
  | some id => alookup id rs.by_id

/-- rooms.rs Rooms::remove: removes the room, its join-code index entry,
and frees the join code. -/
def Rooms.removeR (rs : Rooms) (id : Nat) : Option Room × Rooms :=
  match alookup id rs.by_id with
  | none => (none, rs)
  | some r =>
    (some r,
     { by_id := aerase id rs.by_id,
       jc_to_id := aerase r.join_code rs.jc_to_id,
       next_id := rs.next_id,
       join_codes := rs.join_codes.free r.join_code })

/-- apps.rs App. -/
structure App where
  id : Nat
  token : String
  rooms : Rooms
deriving DecidableEq, Repr

/-- apps.rs App::new. -/
def App.new (id : Nat) (token : String) : App := ⟨id, token, Rooms.mkNew⟩

/-- apps.rs Apps. -/
structure Apps where
  by_id : List (Nat × App)
  token_to_id : List (String × Nat)
  next_id : Nat
deriving DecidableEq, Repr

/-- apps.rs Apps::create (returns the new app id). -/
def Apps.create (a : Apps) (token : String) : Nat × Apps :=
  let app_id := a.next_id
  (app_id,
   { by_id := ainsert app_id (App.new app_id token) a.by_id,
     token_to_id := ainsert token app_id a.token_to_id,
     next_id := a.next_id + 1 })

/-- apps.rs Apps::get. -/
def Apps.get (a : Apps) (id : Nat) : Option App := alookup id a.by_id

/-- apps.rs Apps::get_by_token. -/
def Apps.get_by_token (a : Apps) (token : String) : Option App :=
  match alookup token a.token_to_id with
  | none => none
  | some id => alookup id a.by_id

end Relay

/-! ## Messages the relay handlers construct

Modelled from the spec: the handlers use crate::protocol::packet::Packet
and a RoomInfo with join_code and metadata fields (rooms.rs to_info); that
variant of protocol/packet.rs is absent from src/, which carries the
PacketType spelling instead. Field layout follows the handlers' and
rooms.rs usage together with spec section 4.A. -/

namespace Relay

structure HRoomInfo where
  join_code : String
  metadata : String
deriving DecidableEq, Repr

inductive Packet : Type
  | ClientAuthenticated
  | GetRooms (rooms : List HRoomInfo)
  | ConnectedToRoom (room_id : String) (peer_id : Int)
  | PeerJoinAttempt (target_id : Nat) (metadata : String)
  | PeerJoinedRoom (peer_id : Int)
  | PeerLeftRoom (peer_id : Int)
  | GameData (from_peer : Int) (data : List Nat)
  | ForceDisconnect
  | Error (error_code : Int) (error_message : String)
deriving DecidableEq, Repr

/-- rooms.rs Room::to_info. -/
def Room.to_info (r : Room) : HRoomInfo := ⟨r.join_code, r.metadata⟩

/-- Observable effect of a handler: a packet handed to PaperInterface::send,
or a session removal via PaperInterface::remove_client. -/
inductive Out : Type
  | send (target : Nat) (packet : Packet) (channel : TransferChannel)
  | udpRemove (target : Nat)
deriving DecidableEq, Repr

/-- config/loader.rs Config (the fields the relay handlers read). -/
structure Config where
  udp_bind_address : String
  whitelist : List String
  allowed_versions : List String
  remote_whitelist_endpoint : String
  remote_whitelist_token : String
  relay_id : String
deriving DecidableEq, Repr

/-- The mutable directory state shared by the handlers. -/
structure Dir where
  clients : Clients
  apps : Apps
deriving DecidableEq, Repr

end Relay

/-! ## src/relay/handlers/auth.rs -/

namespace Relay

/-- auth.rs AuthHandler::is_version_allowed. Note: a bare contains, with
no empty-list case. -/
def is_version_allowed (cfg : Config) (version : String) : Bool :=
  cfg.allowed_versions.contains version

/-- auth.rs AuthHandler::check_local_whitelist. -/
def check_local_whitelist (cfg : Config) (app : String) : Bool :=
  if cfg.whitelist.isEmpty then true else cfg.whitelist.contains app

/-- auth.rs AuthHandler::is_app_allowed. remoteResult is the outcome of
the HTTP GET to the remote whitelist (ok true for 200, ok false for 404,
error for transport failure or any other status). -/
def is_app_allowed (cfg : Config) (remoteResult : Except Unit Bool)
    (app : String) : Bool :=
  if cfg.remote_whitelist_endpoint = "" || cfg.remote_whitelist_token = "" then
    check_local_whitelist cfg app
  else
    match remoteResult with
    | .ok res => res
    | .error _ => check_local_whitelist cfg app

/-- auth.rs AuthHandler::authenticate_client. Returns the new directory
and the emitted effects, in order. The version-deny branch sends
Error(401, "Version {v} is not allowed.") then ForceDisconnect and drops
the transport session; the app-deny branch is a bare return (the source
comment reads TODO: send error). -/
def authenticate_client (cfg : Config) (remoteResult : Except Unit Bool)
    (d : Dir) (sender_id : Nat) (app_token version : String) : Dir × List Out :=
  if !(is_version_allowed cfg version) then
    (d, [.send sender_id (.Error 401 ("Version " ++ version ++ " is not allowed.")) .Reliable,
         .send sender_id .ForceDisconnect .Reliable,
         .udpRemove sender_id])
  else if !(is_app_allowed cfg remoteResult app_token) then
    (d, [])
  else
    match d.clients.get sender_id with
    | none => (d, [])
    | some _client =>
      let r :=
        match d.apps.get_by_token app_token with
        | some app => (app.id, d.apps)
        | none => d.apps.create app_token
      ({ clients := ⟨ainsert sender_id ⟨.Authenticated r.1⟩ d.clients.by_id⟩,
         apps := r.2 },
       [.send sender_id .ClientAuthenticated .Reliable])

end Relay

/-! ## src/relay/handlers/room.rs -/

namespace Relay

/-- handlers/room.rs RoomHandler::create_room. none models the source
spinning forever in the join-code rng loop (candidate stream exhausted)
or the unreachable failure to read back the entry just ensured. -/
def create_room (d : Dir) (sender_id app_id : Nat) (is_public : Bool)
    (metadata : String) (cands : List String) : Option (Dir × List Out) :=
  match d.apps.get app_id with
  | none => some (d, [])
  | some app =>
    match d.clients.get sender_id with
    | none => some (d, [])
    | some _client =>
      match app.rooms.create sender_id is_public metadata cands with
      | none => none
      | some (room_id, rooms2) =>
        match rooms2.get room_id with
        | none => none
        | some room =>
          let join_code := room.join_code
          let r := room.add_peer sender_id
          let rooms3 := { rooms2 with by_id := ainsert room_id r.2 rooms2.by_id }
          some ({ clients := ⟨ainsert sender_id ⟨.InRoom app_id room_id⟩ d.clients.by_id⟩,
                  apps := { d.apps with
                            by_id := ainsert app_id { app with rooms := rooms3 } d.apps.by_id } },
                [.send sender_id (.ConnectedToRoom join_code r.1) .Reliable])

/-- handlers/room.rs RoomHandler::recv_join_res. none models the source
panic at apps.get_mut(app_id).expect("App exists"). Note the
ConnectedToRoom reply carries room_id.to_string(), the decimal rendering
of the numeric room id. -/
def recv_join_res (d : Dir) (app_id target_id room_id : Nat)
    (allowed : Bool) : Option (Dir × List Out) :=
  if allowed then
    match d.clients.get target_id with
    | none => some (d, [])
    | some _client =>
      match d.apps.get app_id with
      | none => none
      | some app =>
        match app.rooms.get room_id with
        | none => some (d, [.send target_id (.Error 401 "Room not found") .Reliable])
        | some room =>
          let r := room.add_peer target_id
          let host_id := room.get_host
          let rooms2 := { app.rooms with by_id := ainsert room_id r.2 app.rooms.by_id }
          some ({ clients := ⟨ainsert target_id ⟨.InRoom app_id room_id⟩ d.clients.by_id⟩,
                  apps := { d.apps with
                            by_id := ainsert app_id { app with rooms := rooms2 } d.apps.by_id } },
                [.send target_id (.ConnectedToRoom (toString room_id) r.1) .Reliable,
                 .send host_id (.PeerJoinedRoom r.1) .Reliable])
  else
    some (d, [.send target_id (.Error 401 "Room host denied entry") .Reliable])

/-- handlers/room.rs RoomHandler::remove_room. -/
def remove_room (a : Apps) (app_id room_id : Nat) : Apps :=
  match a.get app_id with
  | none => a
  | some app =>
    let r := app.rooms.removeR room_id
    { a with by_id := ainsert app_id { app with rooms := r.2 } a.by_id }

end Relay

/-! ## src/relay/handlers/disconnect.rs -/

namespace Relay

/-- disconnect.rs DisconnectHandler::force_disconnect: send ForceDisconnect
then remove the transport session. -/
def force_disconnect_out (target : Nat) : List Out :=
  [.send target .ForceDisconnect .Reliable, .udpRemove target]

/-- The peer loop of handle_host_disconnect: for each peer, remove it
from Clients then force-disconnect it. -/
def kickPeers (d : Dir) (out : List Out) : List Nat → Dir × List Out
  | [] => (d, out)
  | peer_id :: rest =>
    kickPeers ⟨⟨aerase peer_id d.clients.by_id⟩, d.apps⟩
      (out ++ force_disconnect_out peer_id) rest

/-- disconnect.rs DisconnectHandler::handle_host_disconnect: remove the
room (freeing its join code), then for each remaining peer remove it from
Clients and force-disconnect it. -/
def handle_host_disconnect (d : Dir) (app_id room_id : Nat)
    (peers_to_kick : List Nat) : Dir × List Out :=
  let apps2 := remove_room d.apps app_id room_id
  kickPeers ⟨d.clients, apps2⟩ [] peers_to_kick

/-- disconnect.rs DisconnectHandler::handle_peer_disconnect. -/
def handle_peer_disconnect (d : Dir) (app_id room_id client_id : Nat)
    (peer_godot_id : Int) (other_peers : List Nat) : Dir × List Out :=
  let apps2 :=
    match d.apps.get app_id with
    | none => d.apps
    | some app =>
      match app.rooms.get room_id with
      | none => d.apps
      | some room =>
        let room2 := room.remove_peer client_id
        { d.apps with
          by_id := ainsert app_id
            { app with rooms := { app.rooms with by_id := ainsert room_id room2 app.rooms.by_id } }
            d.apps.by_id }
  (⟨d.clients, apps2⟩,
   other_peers.map (fun p => .send p (.PeerLeftRoom peer_godot_id) .Reliable))

/-- disconnect.rs DisconnectHandler::handle_room_disconnect. -/
def handle_room_disconnect (d : Dir) (sender_id app_id room_id : Nat) :
    Dir × List Out :=
  match d.apps.get app_id with
  | none => (d, [])
  | some app =>
    match app.rooms.get room_id with
    | none => (d, [])
    | some room =>
      match room.client_to_gd sender_id with
      | none => (d, [])
      | some godot_id =>
        let other_peers := room.get_clients.filter (fun id => decide (id ≠ sender_id))
        if room.get_host = sender_id then
          handle_host_disconnect d app_id room_id other_peers
        else
          handle_peer_disconnect d app_id room_id sender_id godot_id other_peers

/-- disconnect.rs DisconnectHandler::handle_disconnect. -/
def handle_disconnect (d : Dir) (client_id : Nat) : Dir × List Out :=
  match d.clients.get client_id with
  | none => (d, [])
  | some client =>
    let d1 : Dir := ⟨⟨aerase client_id d.clients.by_id⟩, d.apps⟩
    match client.state with
    | .InRoom app_id room_id => handle_room_disconnect d1 client_id app_id room_id
    | _ => (d1, [])

end Relay

/-! ## src/udp/sessions.rs and src/udp/paper_interface.rs -/

namespace Udp

/-- sessions.rs ClientSession. The paperudp Channel and the
last_heard_from timestamp are external to the claims and omitted; the
remote address is an opaque Nat. -/
structure ClientSession where
  id : Nat
  addr : Nat
deriving DecidableEq, Repr

/-- sessions.rs ConnectionManager. -/
structure ConnectionManager where
  id_to_session : List (Nat × ClientSession)
  addr_to_id : List (Nat × Nat)
  next_client_id : Nat
deriving DecidableEq, Repr

/-- sessions.rs ConnectionManager::remove_session: removes the session
from both maps; idempotent. -/
def ConnectionManager.remove_session (cm : ConnectionManager) (id : Nat) :
    ConnectionManager :=
  match alookup id cm.id_to_session with
  | none => cm
  | some session =>
    { cm with id_to_session := aerase id cm.id_to_session,
              addr_to_id := aerase session.addr cm.addr_to_id }

/-- paperudp DecodeResult as consumed by paper_interface.rs. Malformed is
the DecodeResult::None verdict (unknown or malformed inner frame). -/
inductive DecodeResult : Type
  | Unreliable (payload : List (List Nat))
  | Reliable (payload : List (List Nat)) (ack_packet : Option (List Nat))
  | Ack
  | Malformed
deriving DecidableEq, Repr

/-- common.rs / paper_interface.rs ServerEvent. -/
inductive ServerEvent : Type
  | ClientConnected (client_id : Nat)
  | ClientDisconnected (client_id : Nat)
  | PacketReceived (client_id : Nat) (data : List Nat) (channel : TransferChannel)
deriving DecidableEq, Repr

/-- The per-datagram dispatch of PaperInterface::recv_events (the match on
the decode result, lines 54-85): returns the new session state, the events
pushed for the relay, and any ACK bytes written back to the socket.
An unreliable payload equal to the single heartbeat byte 0x03 is skipped. -/
def processDecodeResult (cm : ConnectionManager) (session_id : Nat)
    (res : DecodeResult) : ConnectionManager × List ServerEvent × List (List Nat) :=
  match res with
  | .Unreliable payload =>
    (cm,
     payload.filterMap (fun p =>
       if p = [3] then none
       else some (.PacketReceived session_id p .Unreliable)),
     [])
  | .Reliable payload ack_packet =>
    (cm,
     payload.map (fun p => .PacketReceived session_id p .Reliable),
     match ack_packet with
     | some ack => [ack]
     | none => [])
  | .Ack => (cm, [], [])
  | .Malformed => (cm.remove_session session_id, [], [])

end Udp

/-! ## Invariants of the tenancy directory (spec sections 3 and 8)

RoomInv is P2 of the spec — inverse peer maps, peer ids at least 1 and
pairwise distinct (distinctness of godot ids is key-nodup of
godot_to_client; distinctness of each client's peer id follows from the
inverse property), host a member — strengthened with the reachability
facts needed to make it inductive: association-list keys are nodup and
every allocated peer id is below next_godot_id. -/

namespace Relay

def RoomInv (r : Room) : Prop :=
  (∀ e ∈ r.client_to_godot,
     alookup e.2 r.godot_to_client = some e.1 ∧ 1 ≤ e.2 ∧ e.2 < r.next_godot_id) ∧
  (∀ e ∈ r.godot_to_client,
     alookup e.2 r.client_to_godot = some e.1 ∧ 1 ≤ e.1 ∧ e.1 < r.next_godot_id) ∧
  (akeys r.client_to_godot).Nodup ∧
  (akeys r.godot_to_client).Nodup ∧
  (alookup r.host_id r.client_to_godot).isSome = true

instance (r : Room) : Decidable (RoomInv r) := by
  unfold RoomInv; infer_instance

/-- Reachability fact of a Rooms directory: every live room id was minted
below next_id, and ids are nodup. -/
def RoomsWfKeys (rs : Rooms) : Prop :=
  (∀ e ∈ rs.by_id, e.1 < rs.next_id) ∧ (akeys rs.by_id).Nodup

instance (rs : Rooms) : Decidable (RoomsWfKeys rs) := by
  unfold RoomsWfKeys; infer_instance

/-- Every live room of every app satisfies RoomInv, and each per-app room
directory is well keyed. -/
def DirRoomInv (d : Dir) : Prop :=
  ∀ a ∈ d.apps.by_id, (∀ e ∈ a.2.rooms.by_id, RoomInv e.2) ∧ RoomsWfKeys a.2.rooms

instance (d : Dir) : Decidable (DirRoomInv d) := by
  unfold DirRoomInv; infer_instance

/-- Join-code invariant of one per-app Rooms directory (I6 restricted to
one app): live rooms carry pairwise distinct codes, every live code is
held by the generator's used set, room ids are nodup and below next_id. -/
def RoomsCodesInv (rs : Rooms) : Prop :=
  (∀ e1 ∈ rs.by_id, ∀ e2 ∈ rs.by_id, e1.1 ≠ e2.1 → e1.2.join_code ≠ e2.2.join_code) ∧
  (∀ e ∈ rs.by_id, e.2.join_code ∈ rs.join_codes.used) ∧
  (∀ e ∈ rs.by_id, e.1 < rs.next_id) ∧
  (akeys rs.by_id).Nodup

instance (rs : Rooms) : Decidable (RoomsCodesInv rs) := by
  unfold RoomsCodesInv; infer_instance

/-- The literal reading of I6: join codes unique across all live rooms of
the whole process, i.e. across apps. -/
def ProcessCodesUnique (d : Dir) : Prop :=
  ∀ a1 ∈ d.apps.by_id, ∀ a2 ∈ d.apps.by_id,
    ∀ r1 ∈ a1.2.rooms.by_id, ∀ r2 ∈ a2.2.rooms.by_id,
      ¬(a1.1 = a2.1 ∧ r1.1 = r2.1) → r1.2.join_code ≠ r2.2.join_code

instance (d : Dir) : Decidable (ProcessCodesUnique d) := by
  unfold ProcessCodesUnique; infer_instance

/-! Concrete directory states used as witnesses and counterexamples. -/

/-- A room with host 1 (peer 1) and one joined peer 2 (peer 2). -/
def roomTwo : Room :=
  { id := 0, join_code := "ABCDE", is_public := true, metadata := "",
    host_id := 1, client_to_godot := [(1, 1), (2, 2)],
    godot_to_client := [(1, 1), (2, 2)], next_godot_id := 3 }

/-- A room holding only its host 1. -/
def roomHost : Room :=
  { id := 0, join_code := "ABCDE", is_public := true, metadata := "",
    host_id := 1, client_to_godot := [(1, 1)],
    godot_to_client := [(1, 1)], next_godot_id := 2 }

def roomsOf (r : Room) : Rooms :=
  { by_id := [(0, r)], jc_to_id := [(r.join_code, 0)], next_id := 1,
    join_codes := ⟨[r.join_code]⟩ }

def appOf (r : Room) : App := { id := 0, token := "tok", rooms := roomsOf r }

def appsOf (r : Room) : Apps :=
  { by_id := [(0, appOf r)], token_to_id := [("tok", 0)], next_id := 1 }

/-- Host 1 in the room, client 2 authenticated into app 0. -/
def dirJoin : Dir :=
  { clients := ⟨[(1, ⟨.InRoom 0 0⟩), (2, ⟨.Authenticated 0⟩)]⟩,
    apps := appsOf roomHost }

/-- Host 1 and peer 2 both in room 0 of app 0. -/
def dirTwo : Dir :=
  { clients := ⟨[(1, ⟨.InRoom 0 0⟩), (2, ⟨.InRoom 0 0⟩)]⟩,
    apps := appsOf roomTwo }

/-- Two distinct apps, one authenticated client in each. -/
def dirTwoApps : Dir :=
  { clients := ⟨[(1, ⟨.Authenticated 0⟩), (2, ⟨.Authenticated 1⟩)]⟩,
    apps := { by_id := [(0, App.new 0 "a"), (1, App.new 1 "b")],
              token_to_id := [("a", 0), ("b", 1)], next_id := 2 } }

/-- dirTwoApps after client 1 creates a room in app 0 while the join-code
rng stream yields "AAAAA". -/
def dirTwoCodesMid : Dir :=
  match create_room dirTwoApps 1 0 true "" ["AAAAA"] with
  | some r => r.1
  | none => dirTwoApps

/-- dirTwoCodesMid after client 2 creates a room in app 1 while that
app's own join-code rng stream also yields "AAAAA" (each app has its own
generator, so the second draw succeeds as well). -/
def dirTwoCodes : Dir :=
  match create_room dirTwoCodesMid 2 1 true "" ["AAAAA"] with
  | some r => r.1
  | none => dirTwoCodesMid

/-- Freshness of a JoinRes target: the target is not already a member of
the room it would be added to. -/
def TargetNotInRoom (d : Dir) (app_id room_id target_id : Nat) : Prop :=
  ∀ app ∈ (d.apps.get app_id).toList, ∀ room ∈ (app.rooms.get room_id).toList,
    room.client_to_gd target_id = none

instance (d : Dir) (a r t : Nat) : Decidable (TargetNotInRoom d a r t) := by
  unfold TargetNotInRoom
  infer_instance

/-- dirJoin after client 2 creates a second room in app 0 (candidate code
"QQQQQ"). -/
def dirCreated : Dir :=
  match create_room dirJoin 2 0 true "" ["QQQQQ"] with
  | some r => r.1
  | none => dirJoin

def dirCreatedOuts : List Out :=
  match create_room dirJoin 2 0 true "" ["QQQQQ"] with
  | some r => r.2
  | none => []

/-- dirJoin after the host admits client 2 into room 0 via JoinRes. -/
def dirJoined : Dir :=
  match recv_join_res dirJoin 0 2 0 true with
  | some r => r.1
  | none => dirJoin

def dirJoinedOuts : List Out :=
  match recv_join_res dirJoin 0 2 0 true with
  | some r => r.2
  | none => []

/-- dirTwo after the host re-sends JoinRes for client 2, which is already
a member of the room (the duplicate peer addition). -/
def dirTwoDup : Dir :=
  match recv_join_res dirTwo 0 2 0 true with
  | some r => r.1
  | none => dirTwo

/-- roomsOf roomHost after creating a second room (candidate "ZZZZZ"). -/
def rsCreated : Rooms :=
  match Rooms.create (roomsOf roomHost) 5 true "" ["ZZZZZ"] with
  | some r => r.2
  | none => roomsOf roomHost

/-- roomsOf roomHost after removing room 0. -/
def rsRemoved : Rooms := (Rooms.removeR (roomsOf roomHost) 0).2

end Relay

/-! # Theorems

General lemmas about the association-list map model, then the claims. -/

section AListLemmas

variable {K V : Type} [DecidableEq K]

theorem alookup_aerase_self (k : K) (m : List (K × V)) :
    alookup k (aerase k m) = none := by
  induction m with
  | nil => rfl
  | cons e rest ih =>
    by_cases h : e.1 = k
    · simpa [aerase, h] using ih
    · simpa [aerase, alookup, h] using ih

theorem alookup_aerase_ne {k k1 : K} (m : List (K × V)) (h : k1 ≠ k) :
    alookup k1 (aerase k m) = alookup k1 m := by
  induction m with
  | nil => rfl
  | cons e rest ih =>
    by_cases he : e.1 = k
    · have hne : k ≠ k1 := fun hc => h hc.symm
      simpa [aerase, alookup, he, hne] using ih
    · by_cases hk1 : e.1 = k1
      · simp [aerase, alookup, hk1, h]
      · simpa [aerase, alookup, he, hk1] using ih

theorem alookup_ainsert_self (k : K) (v : V) (m : List (K × V)) :
    alookup k (ainsert k v m) = some v := by
  simp [ainsert, alookup]

theorem alookup_ainsert_ne {k k1 : K} (v : V) (m : List (K × V)) (h : k1 ≠ k) :
    alookup k1 (ainsert k v m) = alookup k1 m := by
  have hne : k ≠ k1 := fun hc => h hc.symm
  rw [ainsert, alookup]
  simp only [hne, if_false]
  exact alookup_aerase_ne m h

theorem alookup_mem {k : K} {v : V} {m : List (K × V)} (h : alookup k m = some v) :
    (k, v) ∈ m := by
  induction m with
  | nil => cases h
  | cons e rest ih =>
    rw [alookup] at h
    by_cases he : e.1 = k
    · simp only [he, if_true, Option.some.injEq] at h
      have hev : e = (k, v) := by rw [← he, ← h]
      rw [hev]
      exact List.mem_cons_self _ _
    · simp only [he, if_false] at h
      exact List.mem_cons_of_mem _ (ih h)

theorem mem_aerase {e : K × V} {k : K} {m : List (K × V)} :
    e ∈ aerase k m ↔ e ∈ m ∧ e.1 ≠ k := by
  induction m with
  | nil => simp [aerase]
  | cons x rest ih =>
    by_cases hx : x.1 = k
    · rw [aerase]
      simp only [hx, if_true, ih, List.mem_cons]
      constructor
      · rintro ⟨h1, h2⟩; exact ⟨Or.inr h1, h2⟩
      · rintro ⟨h1 | h1, h2⟩
        · exact absurd (h1 ▸ hx) h2
        · exact ⟨h1, h2⟩
    · rw [aerase]
      simp only [hx, if_false, List.mem_cons, ih]
      constructor
      · rintro (h1 | ⟨h1, h2⟩)
        · exact ⟨Or.inl h1, h1 ▸ hx⟩
        · exact ⟨Or.inr h1, h2⟩
      · rintro ⟨h1 | h1, h2⟩
        · exact Or.inl h1
        · exact Or.inr ⟨h1, h2⟩

theorem mem_ainsert {e : K × V} {k : K} {v : V} {m : List (K × V)} :
    e ∈ ainsert k v m ↔ e = (k, v) ∨ (e ∈ m ∧ e.1 ≠ k) := by
  simp [ainsert, mem_aerase]

omit [DecidableEq K] in
theorem mem_akeys {x : K} {m : List (K × V)} :
    x ∈ akeys m ↔ ∃ e ∈ m, e.1 = x := by
  simp [akeys]

theorem not_mem_akeys_aerase (k : K) (m : List (K × V)) :
    k ∉ akeys (aerase k m) := by
  rw [mem_akeys]
  rintro ⟨e, hmem, hk⟩
  exact (mem_aerase.1 hmem).2 hk

theorem mem_akeys_aerase_sub {x k : K} {m : List (K × V)}
    (h : x ∈ akeys (aerase k m)) : x ∈ akeys m := by
  rw [mem_akeys] at h ⊢
  obtain ⟨e, hmem, hx⟩ := h
  exact ⟨e, (mem_aerase.1 hmem).1, hx⟩

theorem nodup_akeys_aerase {k : K} {m : List (K × V)} (h : (akeys m).Nodup) :
    (akeys (aerase k m)).Nodup := by
  induction m with
  | nil => simp [aerase, akeys]
  | cons e rest ih =>
    simp only [akeys, List.map_cons, List.nodup_cons] at h
    by_cases he : e.1 = k
    · rw [aerase]
      simp only [he, if_true]
      exact ih h.2
    · rw [aerase]
      simp only [he, if_false, akeys, List.map_cons, List.nodup_cons]
      refine ⟨fun hc => h.1 (mem_akeys_aerase_sub (by simpa [akeys] using hc)), ih h.2⟩

theorem nodup_akeys_ainsert {k : K} {v : V} {m : List (K × V)} (h : (akeys m).Nodup) :
    (akeys (ainsert k v m)).Nodup := by
  rw [ainsert]
  simp only [akeys, List.map_cons, List.nodup_cons]
  exact ⟨not_mem_akeys_aerase k m, nodup_akeys_aerase h⟩

theorem mem_akeys_of_alookup {k : K} {v : V} {m : List (K × V)}
    (h : alookup k m = some v) : k ∈ akeys m := by
  rw [mem_akeys]
  exact ⟨(k, v), alookup_mem h, rfl⟩

theorem alookup_eq_none_of_not_mem {k : K} {m : List (K × V)}
    (h : k ∉ akeys m) : alookup k m = none := by
  induction m with
  | nil => rfl
  | cons e rest ih =>
    rw [show akeys (e :: rest) = e.1 :: akeys rest from rfl] at h
    simp only [List.mem_cons, not_or] at h
    have h1 : e.1 ≠ k := fun hc => h.1 hc.symm
    rw [alookup]
    simp only [h1, if_false]
    exact ih h.2

theorem alookup_of_mem_nodup {e : K × V} {m : List (K × V)}
    (hmem : e ∈ m) (h : (akeys m).Nodup) : alookup e.1 m = some e.2 := by
  induction m with
  | nil => cases hmem
  | cons x rest ih =>
    simp only [akeys, List.map_cons, List.nodup_cons] at h
    rcases List.mem_cons.1 hmem with hx | hx
    · rw [hx, alookup]; simp
    · rw [alookup]
      have hne : x.1 ≠ e.1 := by
        intro hc
        exact h.1 (mem_akeys.2 ⟨e, hx, hc.symm⟩)
      simp only [hne, if_false]
      exact ih hx h.2

theorem aerase_length_le (k : K) (m : List (K × V)) :
    (aerase k m).length ≤ m.length := by
  induction m with
  | nil => simp [aerase]
  | cons e rest ih =>
    by_cases he : e.1 = k
    · rw [aerase]; simp only [he, if_true, List.length_cons]; omega
    · rw [aerase]; simp only [he, if_false, List.length_cons]; omega

theorem length_aerase_lt {k : K} {v : V} {m : List (K × V)}
    (h : alookup k m = some v) : (aerase k m).length < m.length := by
  induction m with
  | nil => cases h
  | cons e rest ih =>
    rw [alookup] at h
    by_cases he : e.1 = k
    · rw [aerase]
      simp only [he, if_true, List.length_cons]
      have := aerase_length_le k rest
      omega
    · simp only [he, if_false] at h
      have := ih h
      rw [aerase]
      simp only [he, if_false, List.length_cons]
      omega

theorem mem_sremove {x s : String} {l : List String} :
    x ∈ sremove s l ↔ x ∈ l ∧ x ≠ s := by
  induction l with
  | nil => simp [sremove]
  | cons y rest ih =>
    by_cases hy : y = s
    · rw [sremove]
      simp only [hy, if_true, ih, List.mem_cons]
      constructor
      · rintro ⟨h1, h2⟩; exact ⟨Or.inr h1, h2⟩
      · rintro ⟨h1 | h1, h2⟩
        · exact absurd h1 h2
        · exact ⟨h1, h2⟩
    · rw [sremove]
      simp only [hy, if_false, List.mem_cons, ih]
      constructor
      · rintro (h1 | ⟨h1, h2⟩)
        · exact ⟨Or.inl h1, h1 ▸ hy⟩
        · exact ⟨Or.inr h1, h2⟩
      · rintro ⟨h1 | h1, h2⟩
        · exact Or.inl h1
        · exact Or.inr ⟨h1, h2⟩

end AListLemmas

/-! ## Codec lemmas: each primitive decoder inverts its encoder on
in-range values. -/

namespace Protocol

theorem read_i32_push_i32 (v : Int) (h1 : -2147483648 ≤ v) (h2 : v < 2147483648)
    (rest : Bytes) : read_i32 (push_i32 v ++ rest) = .ok (v, rest) := by
  rw [push_i32, natToBE4, i32Rep]
  rw [show ([(v % 4294967296).toNat / 16777216 % 256, (v % 4294967296).toNat / 65536 % 256,
            (v % 4294967296).toNat / 256 % 256, (v % 4294967296).toNat % 256] ++ rest)
        = (v % 4294967296).toNat / 16777216 % 256 :: (v % 4294967296).toNat / 65536 % 256 ::
          (v % 4294967296).toNat / 256 % 256 :: (v % 4294967296).toNat % 256 :: rest from rfl]
  rw [read_i32]
  simp only [Except.ok.injEq, Prod.mk.injEq, and_true]
  have hrec : (v % 4294967296).toNat / 16777216 % 256 * 16777216 +
      (v % 4294967296).toNat / 65536 % 256 * 65536 +
      (v % 4294967296).toNat / 256 % 256 * 256 + (v % 4294967296).toNat % 256
      = (v % 4294967296).toNat := by omega
  rw [hrec]
  split <;> omega

theorem read_bool_push_bool (b : Bool) (rest : Bytes) :
    read_bool (push_bool b ++ rest) = .ok (b, rest) := by
  cases b
  · have h0 := read_i32_push_i32 0 (by norm_num) (by norm_num) rest
    simp [push_bool, read_bool, h0]
  · have h1 := read_i32_push_i32 1 (by norm_num) (by norm_num) rest
    simp [push_bool, read_bool, h1]

theorem read_u64_push_u64 (v : Nat) (h : v < 18446744073709551616) (rest : Bytes) :
    read_u64 (push_u64 v ++ rest) = .ok (v, rest) := by
  rw [push_u64]
  simp only [show v % 18446744073709551616 = v from Nat.mod_eq_of_lt h]
  rw [show ([v / 72057594037927936 % 256, v / 281474976710656 % 256,
            v / 1099511627776 % 256, v / 4294967296 % 256, v / 16777216 % 256,
            v / 65536 % 256, v / 256 % 256, v % 256] ++ rest)
        = v / 72057594037927936 % 256 :: v / 281474976710656 % 256 ::
          v / 1099511627776 % 256 :: v / 4294967296 % 256 :: v / 16777216 % 256 ::
          v / 65536 % 256 :: v / 256 % 256 :: v % 256 :: rest from rfl]
  rw [read_u64]
  simp only [Except.ok.injEq, Prod.mk.injEq, and_true]
  omega

theorem lenToI32_small (len : Nat) (h : len < 2147483648) :
    lenToI32 len = (len : Int) := by
  rw [lenToI32]
  have : len % 4294967296 = len := Nat.mod_eq_of_lt (by omega)
  simp only [this]
  split <;> omega

theorem i32ToUsize_ofNat (len : Nat) (h : len < 2147483648) :
    i32ToUsize (len : Int) = len := by
  rw [i32ToUsize]
  omega

theorem read_string_push_string (s : Bytes) (h : s.length < 2147483648)
    (rest : Bytes) : read_string (push_string s ++ rest) = .ok (s, rest) := by
  have h1 : lenToI32 s.length = (s.length : Int) := lenToI32_small _ h
  have h2 : read_i32 (push_i32 ((s.length : Int)) ++ (s ++ rest))
      = .ok ((s.length : Int), s ++ rest) :=
    read_i32_push_i32 _ (by omega) (by exact_mod_cast h) _
  have h3 : ¬ (s ++ rest).length < s.length := by
    simp only [List.length_append]
    omega
  simp only [push_string, h1, List.append_assoc, read_string, h2,
             i32ToUsize_ofNat _ h, h3, if_false, List.take_left, List.drop_left]

theorem read_room_info_push (ri : RoomInfo) (h1 : ri.id.length < 2147483648)
    (h2 : ri.metadata.length < 2147483648) (rest : Bytes) :
    read_room_info (push_string ri.id ++ (push_string ri.metadata ++ rest))
      = .ok (ri, rest) := by
  simp only [read_room_info, read_string_push_string _ h1,
             read_string_push_string _ h2]

theorem read_room_infos_push (rooms : List RoomInfo)
    (h : ∀ ri ∈ rooms, ri.id.length < 2147483648 ∧ ri.metadata.length < 2147483648)
    (rest : Bytes) :
    read_room_infos rooms.length
      ((rooms.map (fun room => push_string room.id ++ push_string room.metadata)).flatten ++ rest)
      = .ok (rooms, rest) := by
  induction rooms with
  | nil => rfl
  | cons ri rs ih =>
    have hri := h ri (List.mem_cons_self _ _)
    simp only [List.length_cons, List.map_cons, List.flatten_cons, List.append_assoc,
               read_room_infos, read_room_info_push _ hri.1 hri.2,
               ih (fun x hx => h x (List.mem_cons_of_mem _ hx))]

theorem read_vec_room_info_push (rooms : List RoomInfo)
    (hlen : rooms.length < 2147483648)
    (h : ∀ ri ∈ rooms, ri.id.length < 2147483648 ∧ ri.metadata.length < 2147483648)
    (rest : Bytes) :
    read_vec_room_info (push_vec_room_info rooms ++ rest) = .ok (rooms, rest) := by
  have h1 : lenToI32 rooms.length = (rooms.length : Int) := lenToI32_small _ hlen
  have h2 : read_i32 (push_i32 ((rooms.length : Int)) ++
      ((rooms.map (fun room => push_string room.id ++ push_string room.metadata)).flatten ++ rest))
      = .ok ((rooms.length : Int), _) :=
    read_i32_push_i32 _ (by omega) (by exact_mod_cast hlen) _
  have h3 : ¬ ((rooms.length : Int) < 0) := by omega
  have h4 : ((rooms.length : Int)).toNat = rooms.length := by omega
  simp only [push_vec_room_info, h1, List.append_assoc, read_vec_room_info, h2, h3,
             if_false, h4]
  exact read_room_infos_push rooms h rest

theorem read_i32_push_i320 (v : Int) (h1 : -2147483648 ≤ v) (h2 : v < 2147483648) :
    read_i32 (push_i32 v) = .ok (v, []) := by
  have := read_i32_push_i32 v h1 h2 []
  rwa [List.append_nil] at this

theorem read_u64_push_u640 (v : Nat) (h : v < 18446744073709551616) :
    read_u64 (push_u64 v) = .ok (v, []) := by
  have := read_u64_push_u64 v h []
  rwa [List.append_nil] at this

theorem read_bool_push_bool0 (b : Bool) :
    read_bool (push_bool b) = .ok (b, []) := by
  have := read_bool_push_bool b []
  rwa [List.append_nil] at this

theorem read_string_push_string0 (s : Bytes) (h : s.length < 2147483648) :
    read_string (push_string s) = .ok (s, []) := by
  have := read_string_push_string s h []
  rwa [List.append_nil] at this

theorem read_vec_room_info_push0 (rooms : List RoomInfo)
    (hlen : rooms.length < 2147483648)
    (h : ∀ ri ∈ rooms, ri.id.length < 2147483648 ∧ ri.metadata.length < 2147483648) :
    read_vec_room_info (push_vec_room_info rooms) = .ok (rooms, []) := by
  have := read_vec_room_info_push rooms hlen h []
  rwa [List.append_nil] at this

end Protocol

/-- C2 (amended): for every protocol packet value whose string and vector
fields are shorter than 2^31 bytes / elements and whose numeric fields are
in machine range — which includes every variant with empty strings and a
zero-length GameData blob — encoding is total by construction and decoding
the encoded bytes succeeds and returns the same value:
PacketType::from_bytes(m.to_bytes()) = Ok(m). -/
theorem C2_roundtrip_wf (m : Protocol.PacketType) (h : m.wfB = true) :
    Protocol.PacketType.from_bytes (Protocol.PacketType.to_bytes m) = .ok m := by
  open Protocol in
  cases m with
  | Authenticate app_id version =>
    simp only [PacketType.wfB, Bool.and_eq_true, decide_eq_true_eq] at h
    simp [PacketType.to_bytes, PacketType.from_bytes,
               AUTHENTICATE, CLIENT_AUTHENTICATED, CREATE_ROOM, JOIN_ROOM,
               CONNECTED_TO_ROOM, PEER_JOIN_ATTEMPT, PEER_JOINED, PEER_LEFT,
               GAME_DATA, FORCE_DISCONNECT, ERROR_PACKET, REQ_ROOMS, GET_ROOMS,
               UPDATE_ROOM, JOIN_RES, List.append_assoc,
               read_string_push_string _ h.1, read_string_push_string0 _ h.2]
  | ClientAuthenticated =>
    simp [PacketType.to_bytes, PacketType.from_bytes,
               AUTHENTICATE, CLIENT_AUTHENTICATED, CREATE_ROOM, JOIN_ROOM,
               CONNECTED_TO_ROOM, PEER_JOIN_ATTEMPT, PEER_JOINED, PEER_LEFT,
               GAME_DATA, FORCE_DISCONNECT, ERROR_PACKET, REQ_ROOMS, GET_ROOMS,
               UPDATE_ROOM, JOIN_RES]
  | CreateRoom is_public metadata =>
    simp only [PacketType.wfB, decide_eq_true_eq] at h
    simp [PacketType.to_bytes, PacketType.from_bytes,
               AUTHENTICATE, CLIENT_AUTHENTICATED, CREATE_ROOM, JOIN_ROOM,
               CONNECTED_TO_ROOM, PEER_JOIN_ATTEMPT, PEER_JOINED, PEER_LEFT,
               GAME_DATA, FORCE_DISCONNECT, ERROR_PACKET, REQ_ROOMS, GET_ROOMS,
               UPDATE_ROOM, JOIN_RES, List.append_assoc,
               read_bool_push_bool, read_string_push_string0 _ h]
  | ReqRooms =>
    simp [PacketType.to_bytes, PacketType.from_bytes,
               AUTHENTICATE, CLIENT_AUTHENTICATED, CREATE_ROOM, JOIN_ROOM,
               CONNECTED_TO_ROOM, PEER_JOIN_ATTEMPT, PEER_JOINED, PEER_LEFT,
               GAME_DATA, FORCE_DISCONNECT, ERROR_PACKET, REQ_ROOMS, GET_ROOMS,
               UPDATE_ROOM, JOIN_RES]
  | GetRooms rooms =>
    simp only [PacketType.wfB, Bool.and_eq_true, decide_eq_true_eq,
               List.all_eq_true] at h
    have hfields : ∀ ri ∈ rooms, ri.id.length < 2147483648 ∧ ri.metadata.length < 2147483648 := by
      intro ri hri
      have := h.2 ri hri
      simp only [Bool.and_eq_true, decide_eq_true_eq] at this
      exact this
    simp [PacketType.to_bytes, PacketType.from_bytes,
               AUTHENTICATE, CLIENT_AUTHENTICATED, CREATE_ROOM, JOIN_ROOM,
               CONNECTED_TO_ROOM, PEER_JOIN_ATTEMPT, PEER_JOINED, PEER_LEFT,
               GAME_DATA, FORCE_DISCONNECT, ERROR_PACKET, REQ_ROOMS, GET_ROOMS,
               UPDATE_ROOM, JOIN_RES,
               read_vec_room_info_push0 rooms h.1 hfields]
  | UpdateRoom room_id metadata =>
    simp only [PacketType.wfB, Bool.and_eq_true, decide_eq_true_eq] at h
    simp [PacketType.to_bytes, PacketType.from_bytes,
               AUTHENTICATE, CLIENT_AUTHENTICATED, CREATE_ROOM, JOIN_ROOM,
               CONNECTED_TO_ROOM, PEER_JOIN_ATTEMPT, PEER_JOINED, PEER_LEFT,
               GAME_DATA, FORCE_DISCONNECT, ERROR_PACKET, REQ_ROOMS, GET_ROOMS,
               UPDATE_ROOM, JOIN_RES, List.append_assoc,
               read_string_push_string _ h.1, read_string_push_string0 _ h.2]
  | ReqJoin room_id metadata =>
    simp only [PacketType.wfB, Bool.and_eq_true, decide_eq_true_eq] at h
    simp [PacketType.to_bytes, PacketType.from_bytes,
               AUTHENTICATE, CLIENT_AUTHENTICATED, CREATE_ROOM, JOIN_ROOM,
               CONNECTED_TO_ROOM, PEER_JOIN_ATTEMPT, PEER_JOINED, PEER_LEFT,
               GAME_DATA, FORCE_DISCONNECT, ERROR_PACKET, REQ_ROOMS, GET_ROOMS,
               UPDATE_ROOM, JOIN_RES, List.append_assoc,
               read_string_push_string _ h.1, read_string_push_string0 _ h.2]
  | JoinRes target_id room_id allowed =>
    simp only [PacketType.wfB, Bool.and_eq_true, decide_eq_true_eq] at h
    simp [PacketType.to_bytes, PacketType.from_bytes,
               AUTHENTICATE, CLIENT_AUTHENTICATED, CREATE_ROOM, JOIN_ROOM,
               CONNECTED_TO_ROOM, PEER_JOIN_ATTEMPT, PEER_JOINED, PEER_LEFT,
               GAME_DATA, FORCE_DISCONNECT, ERROR_PACKET, REQ_ROOMS, GET_ROOMS,
               UPDATE_ROOM, JOIN_RES, List.append_assoc,
               read_u64_push_u64 _ h.1, read_string_push_string _ h.2,
               read_bool_push_bool0]
  | ConnectedToRoom room_id peer_id =>
    simp only [PacketType.wfB, i32InRange, Bool.and_eq_true, decide_eq_true_eq] at h
    simp [PacketType.to_bytes, PacketType.from_bytes,
               AUTHENTICATE, CLIENT_AUTHENTICATED, CREATE_ROOM, JOIN_ROOM,
               CONNECTED_TO_ROOM, PEER_JOIN_ATTEMPT, PEER_JOINED, PEER_LEFT,
               GAME_DATA, FORCE_DISCONNECT, ERROR_PACKET, REQ_ROOMS, GET_ROOMS,
               UPDATE_ROOM, JOIN_RES, List.append_assoc,
               read_string_push_string _ h.1,
               read_i32_push_i320 _ h.2.1 h.2.2]
  | PeerJoinAttempt target_id metadata =>
    simp only [PacketType.wfB, Bool.and_eq_true, decide_eq_true_eq] at h
    simp [PacketType.to_bytes, PacketType.from_bytes,
               AUTHENTICATE, CLIENT_AUTHENTICATED, CREATE_ROOM, JOIN_ROOM,
               CONNECTED_TO_ROOM, PEER_JOIN_ATTEMPT, PEER_JOINED, PEER_LEFT,
               GAME_DATA, FORCE_DISCONNECT, ERROR_PACKET, REQ_ROOMS, GET_ROOMS,
               UPDATE_ROOM, JOIN_RES, List.append_assoc,
               read_u64_push_u64 _ h.1, read_string_push_string0 _ h.2]
  | PeerJoinedRoom peer_id =>
    simp only [PacketType.wfB, i32InRange, Bool.and_eq_true, decide_eq_true_eq] at h
    simp [PacketType.to_bytes, PacketType.from_bytes,
               AUTHENTICATE, CLIENT_AUTHENTICATED, CREATE_ROOM, JOIN_ROOM,
               CONNECTED_TO_ROOM, PEER_JOIN_ATTEMPT, PEER_JOINED, PEER_LEFT,
               GAME_DATA, FORCE_DISCONNECT, ERROR_PACKET, REQ_ROOMS, GET_ROOMS,
               UPDATE_ROOM, JOIN_RES,
               read_i32_push_i320 _ h.1 h.2]
  | PeerLeftRoom peer_id =>
    simp only [PacketType.wfB, i32InRange, Bool.and_eq_true, decide_eq_true_eq] at h
    simp [PacketType.to_bytes, PacketType.from_bytes,
               AUTHENTICATE, CLIENT_AUTHENTICATED, CREATE_ROOM, JOIN_ROOM,
               CONNECTED_TO_ROOM, PEER_JOIN_ATTEMPT, PEER_JOINED, PEER_LEFT,
               GAME_DATA, FORCE_DISCONNECT, ERROR_PACKET, REQ_ROOMS, GET_ROOMS,
               UPDATE_ROOM, JOIN_RES,
               read_i32_push_i320 _ h.1 h.2]
  | GameData from_peer data =>
    simp only [PacketType.wfB, i32InRange, Bool.and_eq_true, decide_eq_true_eq] at h
    simp [PacketType.to_bytes, PacketType.from_bytes,
               AUTHENTICATE, CLIENT_AUTHENTICATED, CREATE_ROOM, JOIN_ROOM,
               CONNECTED_TO_ROOM, PEER_JOIN_ATTEMPT, PEER_JOINED, PEER_LEFT,
               GAME_DATA, FORCE_DISCONNECT, ERROR_PACKET, REQ_ROOMS, GET_ROOMS,
               UPDATE_ROOM, JOIN_RES,
               read_i32_push_i32 _ h.1 h.2]
  | ForceDisconnect =>
    simp [PacketType.to_bytes, PacketType.from_bytes,
               AUTHENTICATE, CLIENT_AUTHENTICATED, CREATE_ROOM, JOIN_ROOM,
               CONNECTED_TO_ROOM, PEER_JOIN_ATTEMPT, PEER_JOINED, PEER_LEFT,
               GAME_DATA, FORCE_DISCONNECT, ERROR_PACKET, REQ_ROOMS, GET_ROOMS,
               UPDATE_ROOM, JOIN_RES]
  | Error error_code error_message =>
    simp only [PacketType.wfB, i32InRange, Bool.and_eq_true, decide_eq_true_eq] at h
    simp [PacketType.to_bytes, PacketType.from_bytes,
               AUTHENTICATE, CLIENT_AUTHENTICATED, CREATE_ROOM, JOIN_ROOM,
               CONNECTED_TO_ROOM, PEER_JOIN_ATTEMPT, PEER_JOINED, PEER_LEFT,
               GAME_DATA, FORCE_DISCONNECT, ERROR_PACKET, REQ_ROOMS, GET_ROOMS,
               UPDATE_ROOM, JOIN_RES, List.append_assoc,
               read_i32_push_i32 _ h.1.1 h.1.2, read_string_push_string0 _ h.2]

/-- C2 witness: the round trip at two concrete packets, one with empty
strings and one with a zero-length GameData blob. -/
theorem C2_roundtrip_wf_witness :
    (Protocol.PacketType.wfB (.Authenticate [] []) = true ∧
     Protocol.PacketType.from_bytes
       (Protocol.PacketType.to_bytes (.Authenticate [] [])) = .ok (.Authenticate [] [])) ∧
    (Protocol.PacketType.wfB (.GameData 0 []) = true ∧
     Protocol.PacketType.from_bytes
       (Protocol.PacketType.to_bytes (.GameData 0 [])) = .ok (.GameData 0 [])) :=
  ⟨⟨by decide, C2_roundtrip_wf _ (by decide)⟩,
   ⟨by decide, C2_roundtrip_wf _ (by decide)⟩⟩

/-! ## Directory-handler lemmas (C5, C6, C7, C8) -/

namespace Relay

theorem kickPeers_spec (peers : List Nat) :
    ∀ (d : Dir) (out : List Out),
    (kickPeers d out peers).1.apps = d.apps ∧
    (∀ q, alookup q (kickPeers d out peers).1.clients.by_id
        = if q ∈ peers then none else alookup q d.clients.by_id) ∧
    (kickPeers d out peers).2 = out ++ (peers.map force_disconnect_out).flatten := by
  induction peers with
  | nil =>
    intro d out
    refine ⟨rfl, ?_, by simp [kickPeers]⟩
    intro q
    simp [kickPeers]
  | cons p ps ih =>
    intro d out
    obtain ⟨ih1, ih2, ih3⟩ :=
      ih ⟨⟨aerase p d.clients.by_id⟩, d.apps⟩ (out ++ force_disconnect_out p)
    refine ⟨?_, ?_, ?_⟩
    · simp only [kickPeers]
      exact ih1
    · intro q
      simp only [kickPeers]
      rw [ih2 q]
      by_cases hq : q = p
      · subst hq
        by_cases hmem : q ∈ ps
        · simp [hmem]
        · simp [hmem, alookup_aerase_self]
      · by_cases hmem : q ∈ ps
        · simp [hmem, hq]
        · simp [hmem, hq, alookup_aerase_ne _ hq]
    · simp only [kickPeers]
      rw [ih3, List.map_cons, List.flatten_cons, List.append_assoc]

end Relay

/-- DirRoomInv only inspects the apps directory, which kickPeers leaves
untouched. -/
theorem Relay.DirRoomInv_kickPeers (peers : List Nat) (d : Relay.Dir)
    (out : List Relay.Out) (h : Relay.DirRoomInv d) :
    Relay.DirRoomInv (Relay.kickPeers d out peers).1 := by
  intro a ha
  rw [(Relay.kickPeers_spec peers d out).1] at ha
  exact h a ha

theorem forall_mem_ainsert {K V : Type} [DecidableEq K] {P : K × V → Prop}
    {m : List (K × V)} {k : K} {v : V}
    (hm : ∀ e ∈ m, P e) (hv : P (k, v)) : ∀ e ∈ ainsert k v m, P e := by
  intro e he
  rcases mem_ainsert.1 he with h | h
  · rw [h]
    exact hv
  · exact hm e h.1

theorem forall_mem_aerase {K V : Type} [DecidableEq K] {P : K × V → Prop}
    {m : List (K × V)} {k : K}
    (hm : ∀ e ∈ m, P e) : ∀ e ∈ aerase k m, P e := by
  intro e he
  exact hm e (mem_aerase.1 he).1

namespace Relay

/-- RoomIds::generate returns a candidate that was not live and marks it
live. -/
theorem generate_spec (cands : List String) :
    ∀ (ids : RoomIds) (c : String) (ids2 : RoomIds),
    ids.generate cands = some (c, ids2) →
    c ∉ ids.used ∧ ids2.used = c :: ids.used := by
  induction cands with
  | nil =>
    intro ids c ids2 h
    cases h
  | cons c0 rest ih =>
    intro ids c ids2 h
    rw [RoomIds.generate] at h
    by_cases hc0 : c0 ∈ ids.used
    · rw [if_pos hc0] at h
      exact ih ids c ids2 h
    · rw [if_neg hc0] at h
      cases h
      exact ⟨hc0, rfl⟩

/-- A fresh room holding only its host satisfies the room invariant. -/
theorem RoomInv_new_add_host (id : Nat) (jc : String) (host : Nat)
    (pub : Bool) (md : String) :
    RoomInv ((Room.new id jc host pub md).add_peer host).2 := by
  refine ⟨?_, ?_, ?_, ?_, ?_⟩ <;>
    simp [Room.new, Room.add_peer, ainsert, aerase, akeys, alookup]

/-- add_peer with a client that is not yet a member preserves the room
invariant. -/
theorem RoomInv_add_peer {room : Room} (cid : Nat)
    (hinv : RoomInv room)
    (hfresh : alookup cid room.client_to_godot = none) :
    RoomInv (room.add_peer cid).2 := by
  obtain ⟨h1, h2, hn1, hn2, hh⟩ := hinv
  have hnext1 : 1 ≤ room.next_godot_id := by
    obtain ⟨p, hp⟩ := Option.isSome_iff_exists.1 hh
    have hb := (h1 _ (alookup_mem hp)).2
    omega
  have hstruct : (room.add_peer cid).2
      = Room.mk room.id room.join_code room.is_public room.metadata room.host_id
          (ainsert cid room.next_godot_id room.client_to_godot)
          (ainsert room.next_godot_id cid room.godot_to_client)
          (room.next_godot_id + 1) := rfl
  rw [hstruct]
  refine ⟨?_, ?_, ?_, ?_, ?_⟩
  · show ∀ e ∈ ainsert cid room.next_godot_id room.client_to_godot,
        alookup e.2 (ainsert room.next_godot_id cid room.godot_to_client) = some e.1 ∧
        1 ≤ e.2 ∧ e.2 < room.next_godot_id + 1
    refine forall_mem_ainsert ?_ ?_
    · intro e he
      obtain ⟨hg, hb1, hb2⟩ := h1 e he
      have hne : e.2 ≠ room.next_godot_id := by omega
      refine ⟨?_, hb1, by omega⟩
      rw [alookup_ainsert_ne _ _ hne]
      exact hg
    · exact ⟨alookup_ainsert_self _ _ _, hnext1, by omega⟩
  · show ∀ e ∈ ainsert room.next_godot_id cid room.godot_to_client,
        alookup e.2 (ainsert cid room.next_godot_id room.client_to_godot) = some e.1 ∧
        1 ≤ e.1 ∧ e.1 < room.next_godot_id + 1
    refine forall_mem_ainsert ?_ ?_
    · intro e he
      obtain ⟨hg, hb1, hb2⟩ := h2 e he
      have hne : e.2 ≠ cid := by
        intro hc
        rw [hc, hfresh] at hg
        cases hg
      refine ⟨?_, hb1, by omega⟩
      rw [alookup_ainsert_ne _ _ hne]
      exact hg
    · exact ⟨alookup_ainsert_self _ _ _, hnext1, by omega⟩
  · exact nodup_akeys_ainsert hn1
  · exact nodup_akeys_ainsert hn2
  · show (alookup room.host_id
        (ainsert cid room.next_godot_id room.client_to_godot)).isSome = true
    by_cases hhc : room.host_id = cid
    · rw [hhc, alookup_ainsert_self]
      rfl
    · rw [alookup_ainsert_ne _ _ hhc]
      exact hh

/-- remove_peer of a non-host client preserves the room invariant. -/
theorem RoomInv_remove_peer {room : Room} (cid : Nat)
    (hinv : RoomInv room)
    (hne : room.host_id ≠ cid) :
    RoomInv (room.remove_peer cid) := by
  obtain ⟨h1, h2, hn1, hn2, hh⟩ := hinv
  rw [Room.remove_peer]
  cases hl : alookup cid room.client_to_godot with
  | none => exact ⟨h1, h2, hn1, hn2, hh⟩
  | some pid =>
    have hpid : alookup pid room.godot_to_client = some cid :=
      (h1 _ (alookup_mem hl)).1
    refine ⟨?_, ?_, ?_, ?_, ?_⟩
    · show ∀ e ∈ aerase cid room.client_to_godot,
          alookup e.2 (aerase pid room.godot_to_client) = some e.1 ∧
          1 ≤ e.2 ∧ e.2 < room.next_godot_id
      intro e he0
      obtain ⟨hm, hne1⟩ := mem_aerase.1 he0
      obtain ⟨hg, hb1, hb2⟩ := h1 e hm
      have hnep : e.2 ≠ pid := by
        intro hc
        rw [hc, hpid] at hg
        exact hne1 (Option.some.inj hg).symm
      refine ⟨?_, hb1, hb2⟩
      rw [alookup_aerase_ne _ hnep]
      exact hg
    · show ∀ e ∈ aerase pid room.godot_to_client,
          alookup e.2 (aerase cid room.client_to_godot) = some e.1 ∧
          1 ≤ e.1 ∧ e.1 < room.next_godot_id
      intro e he0
      obtain ⟨hm, hne1⟩ := mem_aerase.1 he0
      obtain ⟨hg, hb1, hb2⟩ := h2 e hm
      have hnec : e.2 ≠ cid := by
        intro hc
        rw [hc, hl] at hg
        exact hne1 (Option.some.inj hg).symm
      refine ⟨?_, hb1, hb2⟩
      rw [alookup_aerase_ne _ hnec]
      exact hg
    · exact nodup_akeys_aerase hn1
    · exact nodup_akeys_aerase hn2
    · show (alookup room.host_id (aerase cid room.client_to_godot)).isSome = true
      rw [alookup_aerase_ne _ hne]
      exact hh

end Relay

/-- C6 (amended): the directory operations — room creation, JoinRes-driven
peer addition PROVIDED THE TARGET IS NOT ALREADY A MEMBER OF THE ROOM,
and disconnect handling (which includes peer removal) — preserve, for
every live Room of every app, that client_to_godot and godot_to_client
are inverse maps, that all peer ids are at least 1 and pairwise distinct,
and that the host is a member (RoomInv; together with the bookkeeping
facts that make the invariant inductive). A repeated JoinRes for a client
already in the room violates the invariant (see the counterexample). -/
theorem C6_directory_ops_preserve_inv :
    (∀ (d : Relay.Dir) (sender_id app_id : Nat) (is_public : Bool)
       (metadata : String) (cands : List String) (d2 : Relay.Dir)
       (outs : List Relay.Out),
       Relay.DirRoomInv d →
       Relay.create_room d sender_id app_id is_public metadata cands
         = some (d2, outs) →
       Relay.DirRoomInv d2) ∧
    (∀ (d : Relay.Dir) (app_id target_id room_id : Nat) (allowed : Bool)
       (d2 : Relay.Dir) (outs : List Relay.Out),
       Relay.DirRoomInv d →
       Relay.TargetNotInRoom d app_id room_id target_id →
       Relay.recv_join_res d app_id target_id room_id allowed = some (d2, outs) →
       Relay.DirRoomInv d2) ∧
    (∀ (d : Relay.Dir) (client_id : Nat),
       Relay.DirRoomInv d →
       Relay.DirRoomInv (Relay.handle_disconnect d client_id).1) := by
  refine ⟨?_, ?_, ?_⟩
  · -- create_room
    intro d sender app_id is_public metadata cands d2 outs hinv hcr
    unfold Relay.create_room at hcr
    split at hcr
    · cases hcr
      exact hinv
    · rename_i app happ
      have happ2 : alookup app_id d.apps.by_id = some app := happ
      have happinv : (∀ e ∈ app.rooms.by_id, Relay.RoomInv e.2) ∧
          Relay.RoomsWfKeys app.rooms := hinv (app_id, app) (alookup_mem happ2)
      split at hcr
      · cases hcr
        exact hinv
      · rename_i c hc
        split at hcr
        · cases hcr
        · rename_i room_id1 rooms2 hcreate
          split at hcr
          · cases hcr
          · rename_i room0 hroom0
            cases hcr
            unfold Relay.Rooms.create at hcreate
            split at hcreate
            · cases hcreate
            · rename_i jc jcs hgen
              cases hcreate
              have hlooknone : alookup app.rooms.next_id app.rooms.by_id = none := by
                apply alookup_eq_none_of_not_mem
                intro hmemk
                obtain ⟨e, hemem, hekey⟩ := mem_akeys.1 hmemk
                have hb := happinv.2.1 e hemem
                omega
              have hif : ¬ ((alookup app.rooms.next_id app.rooms.by_id).isSome = true) := by
                rw [hlooknone]
                simp
              rw [Relay.Rooms.get] at hroom0
              rw [if_neg hif] at hroom0
              rw [alookup_ainsert_self] at hroom0
              have hroomeq : room0
                  = Relay.Room.new app.rooms.next_id jc sender is_public metadata :=
                (Option.some.inj hroom0).symm
              subst hroomeq
              intro a ha
              rcases mem_ainsert.1 ha with rfl | ⟨hmem, -⟩
              · dsimp only
                rw [if_neg hif]
                refine ⟨?_, ?_, ?_⟩
                · intro e he
                  rcases mem_ainsert.1 he with rfl | ⟨hmem2, hkey⟩
                  · exact Relay.RoomInv_new_add_host _ _ _ _ _
                  · rcases mem_ainsert.1 hmem2 with rfl | ⟨hmem3, -⟩
                    · exact absurd rfl hkey
                    · exact happinv.1 e hmem3
                · intro e he
                  dsimp only
                  rcases mem_ainsert.1 he with rfl | ⟨hmem2, hkey⟩
                  · dsimp only
                    omega
                  · rcases mem_ainsert.1 hmem2 with rfl | ⟨hmem3, -⟩
                    · exact absurd rfl hkey
                    · have hb := happinv.2.1 e hmem3
                      omega
                · exact nodup_akeys_ainsert (nodup_akeys_ainsert happinv.2.2)
              · exact hinv a hmem
  · -- recv_join_res
    intro d app_id target_id room_id allowed d2 outs hinv hfresh hcr
    unfold Relay.recv_join_res at hcr
    split at hcr
    · split at hcr
      · cases hcr
        exact hinv
      · rename_i c hc
        split at hcr
        · cases hcr
        · rename_i app happ
          have happ2 : alookup app_id d.apps.by_id = some app := happ
          have happinv : (∀ e ∈ app.rooms.by_id, Relay.RoomInv e.2) ∧
              Relay.RoomsWfKeys app.rooms := hinv (app_id, app) (alookup_mem happ2)
          split at hcr
          · cases hcr
            exact hinv
          · rename_i room hroom
            cases hcr
            have hroom2 : alookup room_id app.rooms.by_id = some room := hroom
            have hfresh2 : alookup target_id room.client_to_godot = none := by
              have h1 := hfresh app (by
                show app ∈ (d.apps.get app_id).toList
                rw [happ]
                exact List.mem_cons_self _ _)
              exact h1 room (by
                show room ∈ (app.rooms.get room_id).toList
                rw [hroom]
                exact List.mem_cons_self _ _)
            have hrinv : Relay.RoomInv room :=
              happinv.1 (room_id, room) (alookup_mem hroom2)
            have hrid : room_id < app.rooms.next_id :=
              happinv.2.1 (room_id, room) (alookup_mem hroom2)
            intro a ha
            rcases mem_ainsert.1 ha with rfl | ⟨hmem, -⟩
            · dsimp only
              refine ⟨?_, ?_, ?_⟩
              · intro e he
                rcases mem_ainsert.1 he with rfl | ⟨hmem2, -⟩
                · exact Relay.RoomInv_add_peer target_id hrinv hfresh2
                · exact happinv.1 e hmem2
              · intro e he
                dsimp only
                rcases mem_ainsert.1 he with rfl | ⟨hmem2, -⟩
                · exact hrid
                · exact happinv.2.1 e hmem2
              · exact nodup_akeys_ainsert happinv.2.2
            · exact hinv a hmem
    · cases hcr
      exact hinv
  · -- handle_disconnect
    intro d client_id hinv
    unfold Relay.handle_disconnect
    split
    · exact hinv
    · rename_i client hc
      obtain ⟨cstate⟩ := client
      cases cstate with
      | Connected => exact hinv
      | Authenticated app_id => exact hinv
      | InRoom app_id room_id =>
        show Relay.DirRoomInv
          (Relay.handle_room_disconnect ⟨⟨aerase client_id d.clients.by_id⟩, d.apps⟩
            client_id app_id room_id).1
        unfold Relay.handle_room_disconnect
        split
        · exact hinv
        · rename_i app happ
          have happ2 : alookup app_id d.apps.by_id = some app := happ
          have happinv : (∀ e ∈ app.rooms.by_id, Relay.RoomInv e.2) ∧
              Relay.RoomsWfKeys app.rooms := hinv (app_id, app) (alookup_mem happ2)
          split
          · exact hinv
          · rename_i room hroom
            have hroom2 : alookup room_id app.rooms.by_id = some room := hroom
            split
            · exact hinv
            · rename_i g hg
              split
              · -- host branch
                unfold Relay.handle_host_disconnect
                apply Relay.DirRoomInv_kickPeers
                intro a ha2
                have ha3 : a ∈ (Relay.remove_room d.apps app_id room_id).by_id := ha2
                revert ha3
                unfold Relay.remove_room
                split
                · intro ha3
                  exact hinv a ha3
                · rename_i app3 happ3
                  have happ4 : alookup app_id d.apps.by_id = some app3 := happ3
                  have happinv3 : (∀ e ∈ app3.rooms.by_id, Relay.RoomInv e.2) ∧
                      Relay.RoomsWfKeys app3.rooms := hinv (app_id, app3) (alookup_mem happ4)
                  intro ha3
                  rcases mem_ainsert.1 ha3 with rfl | ⟨hmem, -⟩
                  · dsimp only
                    unfold Relay.Rooms.removeR
                    split
                    · exact happinv3
                    · rename_i r hr
                      dsimp only
                      refine ⟨?_, ?_, ?_⟩
                      · intro e he
                        exact happinv3.1 e (mem_aerase.1 he).1
                      · intro e he
                        exact happinv3.2.1 e (mem_aerase.1 he).1
                      · exact nodup_akeys_aerase happinv3.2.2
                  · exact hinv a hmem
              · -- non-host branch
                rename_i hnothost
                unfold Relay.handle_peer_disconnect
                split
                · exact hinv
                · rename_i app3 happ3
                  have happ4 : alookup app_id d.apps.by_id = some app3 := happ3
                  have happinv3 : (∀ e ∈ app3.rooms.by_id, Relay.RoomInv e.2) ∧
                      Relay.RoomsWfKeys app3.rooms := hinv (app_id, app3) (alookup_mem happ4)
                  split
                  · exact hinv
                  · rename_i room3 hroom3
                    have hroom4 : alookup room_id app3.rooms.by_id = some room3 := hroom3
                    have happeq : app3 = app := by
                      rw [happ4] at happ2
                      exact Option.some.inj happ2
                    subst happeq
                    have hroomeq : room3 = room := by
                      rw [hroom4] at hroom2
                      exact Option.some.inj hroom2
                    subst hroomeq
                    intro a ha
                    rcases mem_ainsert.1 ha with rfl | ⟨hmem, -⟩
                    · dsimp only
                      refine ⟨?_, ?_, ?_⟩
                      · intro e he
                        rcases mem_ainsert.1 he with rfl | ⟨hmem2, -⟩
                        · refine Relay.RoomInv_remove_peer client_id
                            (happinv3.1 (room_id, room3) (alookup_mem hroom4)) ?_
                          intro hcontra
                          exact hnothost hcontra
                        · exact happinv3.1 e hmem2
                      · intro e he
                        dsimp only
                        rcases mem_ainsert.1 he with rfl | ⟨hmem2, -⟩
                        · exact happinv3.2.1 (room_id, room3) (alookup_mem hroom4)
                        · exact happinv3.2.1 e hmem2
                      · exact nodup_akeys_ainsert happinv3.2.2
                    · exact hinv a hmem

/-- Witness for C6: the three preservation conjuncts instantiated on the
concrete directories dirJoin (a create, a JoinRes admitting a fresh
client 2) and dirTwo (the host 1 disconnecting). -/
theorem C6_directory_ops_preserve_inv_witness :
    Relay.DirRoomInv Relay.dirCreated ∧ Relay.DirRoomInv Relay.dirJoined ∧
    Relay.DirRoomInv (Relay.handle_disconnect Relay.dirTwo 1).1 := by
  refine ⟨?_, ?_, ?_⟩
  · exact C6_directory_ops_preserve_inv.1 Relay.dirJoin 2 0 true ""
      ["QQQQQ"] Relay.dirCreated Relay.dirCreatedOuts (by decide) (by decide)
  · exact C6_directory_ops_preserve_inv.2.1 Relay.dirJoin 0 2 0 true
      Relay.dirJoined Relay.dirJoinedOuts (by decide) (by decide) (by decide)
  · exact C6_directory_ops_preserve_inv.2.2 Relay.dirTwo 1 (by decide)

/-- Counterexample to C6 as literally claimed: dirTwo satisfies the room
invariant, the host's duplicate JoinRes for client 2 (already a member)
succeeds as a directory operation, yet the resulting directory dirTwoDup
violates the invariant — client 2 holds godot id 3 in client_to_godot
while godot_to_client still maps 2 back to client 2, so the maps are no
longer inverse. -/
theorem C6_claim_counterexample :
    Relay.DirRoomInv Relay.dirTwo ∧
    (Relay.recv_join_res Relay.dirTwo 0 2 0 true).isSome = true ∧
    ¬ Relay.DirRoomInv Relay.dirTwoDup := by
  refine ⟨by decide, by decide, by decide⟩

/-- C7 (amended): join-code uniqueness is maintained PER APP, not across
the process. Within one app's Rooms directory: create draws a join code
that is fresh for THAT app's generator, marks it live there, and stores
the new room under it, preserving the per-app codes invariant; remove
deletes the room, clears its id from the directory, and frees exactly
the removed room's code from that app's live set. Because every App owns
its own RoomIds generator, two different apps can simultaneously hold
live rooms with the same join code (see the counterexample). -/
theorem C7_join_codes_per_app :
    (∀ (rs : Relay.Rooms) (host : Nat) (pub : Bool) (md : String)
       (cands : List String) (rid : Nat) (rs2 : Relay.Rooms),
       Relay.RoomsCodesInv rs →
       Relay.Rooms.create rs host pub md cands = some (rid, rs2) →
       Relay.RoomsCodesInv rs2 ∧
       ∃ jc, jc ∉ rs.join_codes.used ∧
         rs2.join_codes.used = jc :: rs.join_codes.used ∧
         alookup rid rs2.by_id = some (Relay.Room.new rid jc host pub md)) ∧
    (∀ (rs : Relay.Rooms) (id : Nat) (r : Relay.Room),
       Relay.RoomsCodesInv rs →
       (Relay.Rooms.removeR rs id).1 = some r →
       Relay.RoomsCodesInv (Relay.Rooms.removeR rs id).2 ∧
       (Relay.Rooms.removeR rs id).2.join_codes.used
         = sremove r.join_code rs.join_codes.used ∧
       r.join_code ∉ (Relay.Rooms.removeR rs id).2.join_codes.used ∧
       alookup id (Relay.Rooms.removeR rs id).2.by_id = none) := by
  constructor
  · intro rs host pub md cands rid rs2 hinv hcr
    obtain ⟨hdist, hlive, hbound, hnodup⟩ := hinv
    unfold Relay.Rooms.create at hcr
    split at hcr
    · cases hcr
    · rename_i jc jcs hgen
      obtain ⟨hfresh, hused⟩ :=
        Relay.generate_spec cands rs.join_codes jc jcs hgen
      cases hcr
      have hlooknone : alookup rs.next_id rs.by_id = none := by
        apply alookup_eq_none_of_not_mem
        intro hmemk
        obtain ⟨e, hemem, hekey⟩ := mem_akeys.1 hmemk
        have hb := hbound e hemem
        omega
      have hif : ¬ ((alookup rs.next_id rs.by_id).isSome = true) := by
        rw [hlooknone]
        simp
      constructor
      · refine ⟨?_, ?_, ?_, ?_⟩
        · intro e1 he1 e2 he2 hne
          dsimp only at he1 he2
          rw [if_neg hif] at he1 he2
          rcases mem_ainsert.1 he1 with rfl | ⟨hm1, hk1⟩
          · rcases mem_ainsert.1 he2 with rfl | ⟨hm2, hk2⟩
            · exact absurd rfl hne
            · show jc ≠ e2.2.join_code
              intro hcontra
              exact hfresh (hcontra ▸ hlive e2 hm2)
          · rcases mem_ainsert.1 he2 with rfl | ⟨hm2, hk2⟩
            · show e1.2.join_code ≠ jc
              intro hcontra
              exact hfresh (hcontra ▸ hlive e1 hm1)
            · exact hdist e1 hm1 e2 hm2 hne
        · intro e he
          dsimp only at he ⊢
          rw [if_neg hif] at he
          rw [hused]
          rcases mem_ainsert.1 he with rfl | ⟨hm, -⟩
          · exact List.mem_cons_self _ _
          · exact List.mem_cons_of_mem _ (hlive e hm)
        · intro e he
          dsimp only at he ⊢
          rw [if_neg hif] at he
          rcases mem_ainsert.1 he with rfl | ⟨hm, -⟩
          · dsimp only
            omega
          · have hb := hbound e hm
            omega
        · show (akeys (if (alookup rs.next_id rs.by_id).isSome then rs.by_id
            else ainsert rs.next_id _ rs.by_id)).Nodup
          rw [if_neg hif]
          exact nodup_akeys_ainsert hnodup
      · refine ⟨jc, hfresh, hused, ?_⟩
        dsimp only
        rw [if_neg hif]
        exact alookup_ainsert_self _ _ _
  · intro rs id r hinv h
    obtain ⟨hdist, hlive, hbound, hnodup⟩ := hinv
    unfold Relay.Rooms.removeR at h ⊢
    split at h
    · cases h
    · rename_i r0 hr0
      have hr : r0 = r := Option.some.inj h
      subst hr
      refine ⟨⟨?_, ?_, ?_, ?_⟩, rfl, ?_, ?_⟩
      · intro e1 he1 e2 he2 hne
        exact hdist e1 (mem_aerase.1 he1).1 e2 (mem_aerase.1 he2).1 hne
      · intro e he
        dsimp only
        obtain ⟨hm, hk⟩ := mem_aerase.1 he
        show e.2.join_code ∈ sremove r0.join_code rs.join_codes.used
        rw [mem_sremove]
        refine ⟨hlive e hm, ?_⟩
        exact hdist e hm (id, r0) (alookup_mem hr0) hk
      · intro e he
        exact hbound e (mem_aerase.1 he).1
      · exact nodup_akeys_aerase hnodup
      · show r0.join_code ∉ sremove r0.join_code rs.join_codes.used
        intro hcontra
        exact (mem_sremove.1 hcontra).2 rfl
      · exact alookup_aerase_self _ _

/-- Witness for C7: the two conjuncts instantiated on the one-room
directory roomsOf roomHost — a create drawing candidate "ZZZZZ" and the
removal of room 0 (join code "ABCDE"). -/
theorem C7_join_codes_per_app_witness :
    (Relay.RoomsCodesInv Relay.rsCreated ∧
     ∃ jc, jc ∉ (Relay.roomsOf Relay.roomHost).join_codes.used ∧
       Relay.rsCreated.join_codes.used
         = jc :: (Relay.roomsOf Relay.roomHost).join_codes.used ∧
       alookup 1 Relay.rsCreated.by_id
         = some (Relay.Room.new 1 jc 5 true "")) ∧
    (Relay.RoomsCodesInv Relay.rsRemoved ∧
     Relay.rsRemoved.join_codes.used
       = sremove "ABCDE" (Relay.roomsOf Relay.roomHost).join_codes.used ∧
     "ABCDE" ∉ Relay.rsRemoved.join_codes.used ∧
     alookup 0 Relay.rsRemoved.by_id = none) := by
  constructor
  · exact C7_join_codes_per_app.1 (Relay.roomsOf Relay.roomHost) 5 true ""
      ["ZZZZZ"] 1 Relay.rsCreated (by decide) (by decide)
  · exact C7_join_codes_per_app.2 (Relay.roomsOf Relay.roomHost) 0
      Relay.roomHost (by decide) (by decide)

/-- Counterexample to C7 as literally claimed (process-wide uniqueness):
starting from two live apps, client 1 creates a room in app 0 while that
app's generator draws "AAAAA", then client 2 creates a room in app 1
whose OWN generator also draws "AAAAA" — both creations succeed, and the
resulting process state holds two live rooms in different apps with the
same join code. -/
theorem C7_claim_counterexample :
    Relay.ProcessCodesUnique Relay.dirTwoApps ∧
    (Relay.create_room Relay.dirTwoApps 1 0 true "" ["AAAAA"]).isSome = true ∧
    (Relay.create_room Relay.dirTwoCodesMid 2 1 true "" ["AAAAA"]).isSome = true ∧
    ¬ Relay.ProcessCodesUnique Relay.dirTwoCodes := by
  refine ⟨by decide, by decide, by decide, by decide⟩

/-- C5: when a client in state InRoom disconnects and it is the room's
host: the room is removed from its app, its join code is freed (gone from
the generator's used set and from the join-code index, so it can be
reused), and every other peer of that room is sent ForceDisconnect, has
its transport session dropped, and is removed from the Clients
directory. -/
theorem C5_host_disconnect_cascade (d : Relay.Dir) (host_id app_id room_id : Nat)
    (app : Relay.App) (room : Relay.Room) (g : Int)
    (hclient : d.clients.get host_id = some ⟨.InRoom app_id room_id⟩)
    (happ : d.apps.get app_id = some app)
    (hroom : app.rooms.get room_id = some room)
    (hhost : room.get_host = host_id)
    (hmem : room.client_to_gd host_id = some g) :
    ∃ a2, (Relay.handle_disconnect d host_id).1.apps.get app_id = some a2 ∧
      a2.rooms.get room_id = none ∧
      alookup room.join_code a2.rooms.jc_to_id = none ∧
      room.join_code ∉ a2.rooms.join_codes.used ∧
      (∀ p ∈ room.get_clients, p ≠ host_id →
        Relay.Out.send p .ForceDisconnect .Reliable ∈ (Relay.handle_disconnect d host_id).2 ∧
        Relay.Out.udpRemove p ∈ (Relay.handle_disconnect d host_id).2 ∧
        (Relay.handle_disconnect d host_id).1.clients.get p = none) := by
  have hroom2 : alookup room_id app.rooms.by_id = some room := hroom
  have hremove : Relay.remove_room d.apps app_id room_id
      = Relay.Apps.mk
          (ainsert app_id
            (Relay.App.mk app.id app.token
              (Relay.Rooms.mk (aerase room_id app.rooms.by_id)
                (aerase room.join_code app.rooms.jc_to_id) app.rooms.next_id
                (app.rooms.join_codes.free room.join_code)))
            d.apps.by_id)
          d.apps.token_to_id d.apps.next_id := by
    simp only [Relay.remove_room, happ, Relay.Rooms.removeR, hroom2]
  have hdis : Relay.handle_disconnect d host_id
      = Relay.kickPeers
          ⟨⟨aerase host_id d.clients.by_id⟩, Relay.remove_room d.apps app_id room_id⟩ []
          (room.get_clients.filter (fun id => decide (id ≠ host_id))) := by
    simp only [Relay.handle_disconnect, hclient, Relay.handle_room_disconnect,
               Relay.Rooms.get, happ, hroom2, hmem, if_pos hhost,
               Relay.handle_host_disconnect]
  obtain ⟨k1, k2, k3⟩ := Relay.kickPeers_spec
    (room.get_clients.filter (fun id => decide (id ≠ host_id)))
    ⟨⟨aerase host_id d.clients.by_id⟩, Relay.remove_room d.apps app_id room_id⟩ []
  refine ⟨Relay.App.mk app.id app.token
            (Relay.Rooms.mk (aerase room_id app.rooms.by_id)
              (aerase room.join_code app.rooms.jc_to_id) app.rooms.next_id
              (app.rooms.join_codes.free room.join_code)),
          ?_, ?_, ?_, ?_, ?_⟩
  · rw [hdis]
    show (Relay.kickPeers _ _ _).1.apps.get app_id = _
    rw [Relay.Apps.get, k1, hremove]
    exact alookup_ainsert_self _ _ _
  · exact alookup_aerase_self _ _
  · exact alookup_aerase_self _ _
  · rw [Relay.RoomIds.free]
    intro hc
    exact (mem_sremove.1 hc).2 rfl
  · intro p hp hne
    have hpf : p ∈ room.get_clients.filter (fun id => decide (id ≠ host_id)) := by
      rw [List.mem_filter]
      exact ⟨hp, by simpa using hne⟩
    have hout : Relay.force_disconnect_out p
        ∈ (room.get_clients.filter (fun id => decide (id ≠ host_id))).map
            Relay.force_disconnect_out :=
      List.mem_map_of_mem _ hpf
    refine ⟨?_, ?_, ?_⟩
    · rw [hdis, k3]
      simp only [List.nil_append]
      exact List.mem_flatten.mpr ⟨Relay.force_disconnect_out p, hout, by
        rw [Relay.force_disconnect_out]
        exact List.mem_cons_self _ _⟩
    · rw [hdis, k3]
      simp only [List.nil_append]
      exact List.mem_flatten.mpr ⟨Relay.force_disconnect_out p, hout, by
        rw [Relay.force_disconnect_out]
        exact List.mem_cons_of_mem _ (List.mem_cons_self _ _)⟩
    · rw [hdis]
      show alookup p (Relay.kickPeers _ _ _).1.clients.by_id = none
      rw [k2 p, if_pos hpf]

/-- C5 witness: host 1 of the two-member room disconnects; the room is
removed, its code freed, and peer 2 is force-disconnected and removed
from the directory. -/
theorem C5_host_disconnect_cascade_witness :
    ∃ a2, (Relay.handle_disconnect Relay.dirTwo 1).1.apps.get 0 = some a2 ∧
      a2.rooms.get 0 = none ∧
      alookup Relay.roomTwo.join_code a2.rooms.jc_to_id = none ∧
      Relay.roomTwo.join_code ∉ a2.rooms.join_codes.used ∧
      (∀ p ∈ Relay.roomTwo.get_clients, p ≠ 1 →
        Relay.Out.send p .ForceDisconnect .Reliable
            ∈ (Relay.handle_disconnect Relay.dirTwo 1).2 ∧
        Relay.Out.udpRemove p ∈ (Relay.handle_disconnect Relay.dirTwo 1).2 ∧
        (Relay.handle_disconnect Relay.dirTwo 1).1.clients.get p = none) :=
  C5_host_disconnect_cascade Relay.dirTwo 1 0 0 (Relay.appOf Relay.roomTwo)
    Relay.roomTwo 1 (by decide) (by decide) (by decide) (by decide) (by decide)

/-- C8 (amended): when the relay handles JoinRes(target, allowed = true)
for a host whose room exists and whose target still exists: the target is
added as a peer of the host's room under the freshly allocated peer id
next_godot_id (not previously assigned to any peer), the target
transitions to InRoom for that app and room, the target is sent
ConnectedToRoom carrying the DECIMAL RENDERING OF THE NUMERIC ROOM ID
(room_id.to_string(), not the room's join code) together with the new
peer id, and the host is sent PeerJoinedRoom with the same peer id. -/
theorem C8_join_res_allowed_spec (d : Relay.Dir) (app_id target_id room_id : Nat)
    (c : Relay.Client) (app : Relay.App) (room : Relay.Room)
    (hclient : d.clients.get target_id = some c)
    (happ : d.apps.get app_id = some app)
    (hroom : app.rooms.get room_id = some room)
    (hinv : Relay.RoomInv room) :
    ∃ d2 outs,
      Relay.recv_join_res d app_id target_id room_id true = some (d2, outs) ∧
      (∃ a2, d2.apps.get app_id = some a2 ∧
        ∃ room2, a2.rooms.get room_id = some room2 ∧
          room2.client_to_gd target_id = some room.next_godot_id ∧
          room2.gd_to_client room.next_godot_id = some target_id) ∧
      room.gd_to_client room.next_godot_id = none ∧
      d2.clients.get target_id = some ⟨.InRoom app_id room_id⟩ ∧
      outs = [.send target_id
                (.ConnectedToRoom (toString room_id) room.next_godot_id) .Reliable,
              .send room.get_host (.PeerJoinedRoom room.next_godot_id) .Reliable] := by
  have hroom2 : alookup room_id app.rooms.by_id = some room := hroom
  refine ⟨Relay.Dir.mk
            (Relay.Clients.mk
              (ainsert target_id ⟨.InRoom app_id room_id⟩ d.clients.by_id))
            (Relay.Apps.mk
              (ainsert app_id
                (Relay.App.mk app.id app.token
                  (Relay.Rooms.mk
                    (ainsert room_id (room.add_peer target_id).2 app.rooms.by_id)
                    app.rooms.jc_to_id app.rooms.next_id app.rooms.join_codes))
                d.apps.by_id)
              d.apps.token_to_id d.apps.next_id),
          [.send target_id
             (.ConnectedToRoom (toString room_id) room.next_godot_id) .Reliable,
           .send room.get_host (.PeerJoinedRoom room.next_godot_id) .Reliable],
          ?_, ?_, ?_, ?_, rfl⟩
  · simp only [Relay.recv_join_res, if_pos rfl, hclient, happ, Relay.Rooms.get, hroom2,
               if_true]
    rfl
  · refine ⟨_, alookup_ainsert_self _ _ _, (room.add_peer target_id).2, ?_, ?_, ?_⟩
    · exact alookup_ainsert_self _ _ _
    · exact alookup_ainsert_self _ _ _
    · exact alookup_ainsert_self _ _ _
  · obtain ⟨-, hg2c, -, -, -⟩ := hinv
    show alookup room.next_godot_id room.godot_to_client = none
    apply alookup_eq_none_of_not_mem
    intro hmem
    obtain ⟨e, hemem, hekey⟩ := mem_akeys.1 hmem
    have := (hg2c e hemem).2.2
    omega
  · exact alookup_ainsert_self _ _ _

/-- C8 witness: host 1 holds room 0 with join code "ABCDE"; client 2
exists. JoinRes(2, allowed) adds 2 as peer 2 and sends ConnectedToRoom
carrying the decimal room id "0". -/
theorem C8_join_res_allowed_spec_witness :
    ∃ d2 outs,
      Relay.recv_join_res Relay.dirJoin 0 2 0 true = some (d2, outs) ∧
      (∃ a2, d2.apps.get 0 = some a2 ∧
        ∃ room2, a2.rooms.get 0 = some room2 ∧
          room2.client_to_gd 2 = some Relay.roomHost.next_godot_id ∧
          room2.gd_to_client Relay.roomHost.next_godot_id = some 2) ∧
      Relay.roomHost.gd_to_client Relay.roomHost.next_godot_id = none ∧
      d2.clients.get 2 = some ⟨.InRoom 0 0⟩ ∧
      outs = [.send 2 (.ConnectedToRoom (toString (0 : Nat))
                        Relay.roomHost.next_godot_id) .Reliable,
              .send Relay.roomHost.get_host
                (.PeerJoinedRoom Relay.roomHost.next_godot_id) .Reliable] :=
  C8_join_res_allowed_spec Relay.dirJoin 0 2 0 ⟨.Authenticated 0⟩
    (Relay.appOf Relay.roomHost) Relay.roomHost
    (by decide) (by decide) (by decide) (by decide)

/-- C8 counterexample to the claim as stated: in the same scenario the
claim requires ConnectedToRoom to carry the room's join code "ABCDE";
the handler instead sends room_id.to_string() = "0". No ConnectedToRoom
message carrying the join code is produced. -/
theorem C8_claim_counterexample :
    (Relay.recv_join_res Relay.dirJoin 0 2 0 true).map (fun r => r.2)
      = some [.send 2 (.ConnectedToRoom "0" 2) .Reliable,
              .send 1 (.PeerJoinedRoom 2) .Reliable] ∧
    Relay.roomHost.join_code = "ABCDE" ∧
    ((("0" : String)) ≠ "ABCDE") ∧
    (∀ outs, (Relay.recv_join_res Relay.dirJoin 0 2 0 true).map (fun r => r.2)
        = some outs →
      Relay.Out.send 2 (.ConnectedToRoom "ABCDE" 2) .Reliable ∉ outs) := by
  refine ⟨by decide, rfl, by decide, ?_⟩
  intro outs houts
  have : outs = [.send 2 (.ConnectedToRoom "0" 2) .Reliable,
                 .send 1 (.PeerJoinedRoom 2) .Reliable] := by
    have hx : (Relay.recv_join_res Relay.dirJoin 0 2 0 true).map (fun r => r.2)
        = some [.send 2 (.ConnectedToRoom "0" 2) .Reliable,
                .send 1 (.PeerJoinedRoom 2) .Reliable] := by decide
    rw [hx] at houts
    exact (Option.some.injEq _ _ ▸ houts).symm ▸ rfl
  rw [this]
  decide

/-- C9 (amended): when the reliability decoder reports a malformed or
unknown inner frame (DecodeResult::None), the UDP interface removes the
client's session — the session is gone from id_to_session — but emits no
ClientDisconnected event (no event at all) and writes no ACK bytes. -/
theorem C9_malformed_removes_session_no_event (cm : Udp.ConnectionManager)
    (sid : Nat) :
    (Udp.processDecodeResult cm sid .Malformed).1 = cm.remove_session sid ∧
    alookup sid (Udp.processDecodeResult cm sid .Malformed).1.id_to_session = none ∧
    (Udp.processDecodeResult cm sid .Malformed).2.1 = [] ∧
    (Udp.processDecodeResult cm sid .Malformed).2.2 = [] := by
  refine ⟨rfl, ?_, rfl, rfl⟩
  show alookup sid (cm.remove_session sid).id_to_session = none
  cases h : alookup sid cm.id_to_session with
  | none =>
    simp only [Udp.ConnectionManager.remove_session, h]
  | some sess =>
    simp only [Udp.ConnectionManager.remove_session, h]
    exact alookup_aerase_self _ _

/-- C9 counterexample to the claim as stated: a manager holding one
session for client 1 processes a malformed inner frame; the session is
removed, yet the emitted event list is empty — in particular it does not
contain ClientDisconnected 1, which the claim requires. -/
theorem C9_claim_counterexample :
    (Udp.processDecodeResult ⟨[(1, ⟨1, 5⟩)], [(5, 1)], 2⟩ 1 .Malformed).1
        = (⟨[], [], 2⟩ : Udp.ConnectionManager) ∧
    (Udp.processDecodeResult ⟨[(1, ⟨1, 5⟩)], [(5, 1)], 2⟩ 1 .Malformed).2.1 = [] ∧
    Udp.ServerEvent.ClientDisconnected 1
        ∉ (Udp.processDecodeResult ⟨[(1, ⟨1, 5⟩)], [(5, 1)], 2⟩ 1 .Malformed).2.1 := by
  refine ⟨by decide, by decide, by decide⟩

/-- C10: heartbeat filtering applies only to the unreliable decode path.
For any decoded unreliable payload list the events pushed are exactly the
non-heartbeat payloads (a payload equal to the single byte 0x03 yields no
PacketReceived), while every reliable payload — including the single byte
0x03 — is delivered upward as PacketReceived on the reliable channel. -/
theorem C10_heartbeat_only_unreliable (cm : Udp.ConnectionManager) (sid : Nat)
    (payload : List (List Nat)) (ack : Option (List Nat)) :
    (Udp.processDecodeResult cm sid (.Unreliable payload)).2.1
        = (payload.filter (fun p => decide (p ≠ [3]))).map
            (fun p => .PacketReceived sid p .Unreliable) ∧
    (Udp.processDecodeResult cm sid (.Reliable payload ack)).2.1
        = payload.map (fun p => .PacketReceived sid p .Reliable) ∧
    (Udp.processDecodeResult cm sid (.Unreliable [[3]])).2.1 = [] ∧
    (Udp.processDecodeResult cm sid (.Reliable [[3]] ack)).2.1
        = [.PacketReceived sid [3] .Reliable] := by
  refine ⟨?_, rfl, rfl, rfl⟩
  show payload.filterMap _ = _
  induction payload with
  | nil => rfl
  | cons p ps ih =>
    by_cases hp : p = [3]
    · simp [List.filterMap_cons, List.filter_cons, hp, ih]
    · simp [List.filterMap_cons, List.filter_cons, hp, ih]

/-- C3: version gate with an empty allowed_versions list. is_version_allowed
is a bare contains with no empty-list case, so the empty list (also the
loader's default) rejects every version: authenticate_client replies
Error(401, "Version v is not allowed.") then ForceDisconnect and drops the
transport session, and the directory is unchanged — the opposite of the
spec's "empty = accept any". -/
theorem C3_empty_allowed_versions_rejects (cfg : Relay.Config)
    (hempty : cfg.allowed_versions = []) (remote : Except Unit Bool)
    (d : Relay.Dir) (sender_id : Nat) (app_token version : String) :
    Relay.authenticate_client cfg remote d sender_id app_token version
      = (d, [.send sender_id
               (.Error 401 ("Version " ++ version ++ " is not allowed.")) .Reliable,
             .send sender_id .ForceDisconnect .Reliable,
             .udpRemove sender_id]) := by
  have hv : Relay.is_version_allowed cfg version = false := by
    rw [Relay.is_version_allowed, hempty]
    rfl
  simp [Relay.authenticate_client, hv]

/-- C3 witness: the default (empty) allowed_versions list rejects a client
authenticating with version 1.0. -/
theorem C3_empty_allowed_versions_rejects_witness :
    (Relay.Config.mk "" [] [] "" "" "").allowed_versions = [] ∧
    Relay.authenticate_client (Relay.Config.mk "" [] [] "" "" "") (.ok true)
        ⟨⟨[]⟩, ⟨[], [], 0⟩⟩ 1 "tok" "1.0"
      = (⟨⟨[]⟩, ⟨[], [], 0⟩⟩,
         [.send 1 (.Error 401 ("Version " ++ "1.0" ++ " is not allowed.")) .Reliable,
          .send 1 .ForceDisconnect .Reliable,
          .udpRemove 1]) :=
  ⟨rfl, C3_empty_allowed_versions_rejects _ rfl _ _ _ _ _⟩

/-- C4: when the app whitelist check denies the token (and the version
passed), authenticate_client hits the branch whose body is only the
source comment TODO: send error and a return: no Error(401) is sent, no
ForceDisconnect is issued, and the directory is unchanged (the client is
indeed not transitioned, but the promised replies are missing). -/
theorem C4_app_denied_silent (cfg : Relay.Config) (remote : Except Unit Bool)
    (d : Relay.Dir) (sender_id : Nat) (app_token version : String)
    (hv : Relay.is_version_allowed cfg version = true)
    (ha : Relay.is_app_allowed cfg remote app_token = false) :
    Relay.authenticate_client cfg remote d sender_id app_token version = (d, []) := by
  simp [Relay.authenticate_client, hv, ha]

/-- C4 witness: local whitelist ["good"], token "bad", version "1.0"
allowed; the client gets no reply at all. -/
theorem C4_app_denied_silent_witness :
    Relay.is_version_allowed (Relay.Config.mk "" ["good"] ["1.0"] "" "" "") "1.0" = true ∧
    Relay.is_app_allowed (Relay.Config.mk "" ["good"] ["1.0"] "" "" "") (.ok true) "bad" = false ∧
    Relay.authenticate_client (Relay.Config.mk "" ["good"] ["1.0"] "" "" "") (.ok true)
        ⟨⟨[(1, ⟨.Connected⟩)]⟩, ⟨[], [], 0⟩⟩ 1 "bad" "1.0"
      = (⟨⟨[(1, ⟨.Connected⟩)]⟩, ⟨[], [], 0⟩⟩, []) :=
  ⟨by decide, by decide,
   C4_app_denied_silent _ _ _ _ _ _ (by decide) (by decide)⟩

/-- Decoding an Authenticate packet whose app token string holds exactly
2^31 bytes fails: push_string casts the usize length to i32, which wraps
to -2147483648; read_string then sign-extends it to a huge usize and
fails with NotEnoughBytes. -/
theorem authenticate_big_string_decode_fails (s : Bytes) (hlen : s.length = 2147483648) :
    Protocol.PacketType.from_bytes (Protocol.PacketType.to_bytes (.Authenticate s []))
      = .error (.NotEnoughBytes (-2147483648) 2147483652) := by
  open Protocol in
  have hL : lenToI32 s.length = -2147483648 := by
    rw [hlen, lenToI32]
    norm_num
  have hps : push_string s = push_i32 (-2147483648) ++ s := by
    rw [push_string, hL]
  have hread : read_i32 (push_i32 (-2147483648) ++ (s ++ push_string ([] : Bytes)))
      = .ok (-2147483648, s ++ push_string ([] : Bytes)) :=
    read_i32_push_i32 _ (by norm_num) (by norm_num) _
  have hrest_len : (s ++ push_string ([] : Bytes)).length = 2147483652 := by
    rw [List.length_append, hlen]
    norm_num [push_string, push_i32, natToBE4, lenToI32, i32Rep]
  have hcond : (s ++ push_string ([] : Bytes)).length < i32ToUsize (-2147483648) := by
    rw [hrest_len, i32ToUsize]
    norm_num
  simp only [PacketType.to_bytes, PacketType.from_bytes, if_true]
  rw [hps, List.append_assoc]
  simp only [read_string, hread]
  rw [if_pos hcond]
  simp only [hrest_len]

/-! ## Reliability receiver lemmas (C1) -/

namespace Reliability

/-- Full characterisation of the drain loop: writing k for the number of
drained packets, the final expected_next is the start plus k (mod 2^32),
the acked sequence numbers are the k consecutive values from the start,
each drained payload was buffered at its sequence number, the final
buffer is the original minus exactly the drained keys, and no packet is
buffered at the final expected_next. -/
theorem drainGo_spec (fuel : Nat) :
    ∀ (m : List (Nat × Bytes)) (e : Nat), m.length ≤ fuel → e < 4294967296 →
    ((drainGo fuel m e).2.1
        = (e + (drainGo fuel m e).2.2.1.length) % 4294967296) ∧
    ((drainGo fuel m e).2.2.2
        = (List.range (drainGo fuel m e).2.2.1.length).map
            (fun i => (e + i) % 4294967296)) ∧
    (∀ i, (h : i < (drainGo fuel m e).2.2.1.length) →
        alookup ((e + i) % 4294967296) m
          = some ((drainGo fuel m e).2.2.1.get ⟨i, h⟩)) ∧
    (∀ q, alookup q (drainGo fuel m e).1
        = if q ∈ (drainGo fuel m e).2.2.2 then none else alookup q m) ∧
    (alookup (drainGo fuel m e).2.1 (drainGo fuel m e).1 = none) := by
  induction fuel with
  | zero =>
    intro m e hfuel he
    have hm : m = [] := List.eq_nil_of_length_eq_zero (Nat.le_zero.mp hfuel)
    subst hm
    refine ⟨?_, ?_, ?_, ?_, ?_⟩
    · simp [drainGo, Nat.mod_eq_of_lt he]
    · simp [drainGo]
    · intro i h
      simp [drainGo] at h
    · intro q
      simp [drainGo, alookup]
    · simp [drainGo, alookup]
  | succ fuel ih =>
    intro m e hfuel he
    cases hl : alookup e m with
    | none =>
      have heq : drainGo (fuel + 1) m e = (m, e, [], []) := by
        simp only [drainGo, hl]
      rw [heq]
      refine ⟨?_, ?_, ?_, ?_, ?_⟩
      · simp [Nat.mod_eq_of_lt he]
      · simp
      · intro i h
        simp at h
      · intro q
        simp
      · exact hl
    | some d =>
      have hlt := length_aerase_lt hl
      have hfuel2 : (aerase e m).length ≤ fuel := by omega
      have hnext : seqNext e < 4294967296 := Nat.mod_lt _ (by norm_num)
      obtain ⟨ih1, ih2, ih3, ih4, ih5⟩ := ih (aerase e m) (seqNext e) hfuel2 hnext
      have heq : drainGo (fuel + 1) m e
          = ((drainGo fuel (aerase e m) (seqNext e)).1,
             (drainGo fuel (aerase e m) (seqNext e)).2.1,
             d :: (drainGo fuel (aerase e m) (seqNext e)).2.2.1,
             e :: (drainGo fuel (aerase e m) (seqNext e)).2.2.2) := by
        simp only [drainGo, hl]
      rw [heq]
      refine ⟨?_, ?_, ?_, ?_, ?_⟩
      · show (drainGo fuel (aerase e m) (seqNext e)).2.1
            = (e + (d :: (drainGo fuel (aerase e m) (seqNext e)).2.2.1).length) % 4294967296
        rw [ih1, seqNext, Nat.mod_add_mod, List.length_cons]
        omega
      · show e :: (drainGo fuel (aerase e m) (seqNext e)).2.2.2
            = (List.range (d :: (drainGo fuel (aerase e m) (seqNext e)).2.2.1).length).map
                (fun i => (e + i) % 4294967296)
        rw [ih2, List.length_cons, List.range_succ_eq_map, List.map_cons, List.map_map]
        congr 1
        · omega
        · refine List.map_congr_left ?_
          intro i _
          simp only [Function.comp_apply, seqNext, Nat.mod_add_mod]
          omega
      · intro i h
        match i, h with
        | 0, h =>
          show alookup ((e + 0) % 4294967296) m = some d
          rw [Nat.add_zero, Nat.mod_eq_of_lt he]
          exact hl
        | j + 1, h =>
          show alookup ((e + (j + 1)) % 4294967296) m
              = some ((drainGo fuel (aerase e m) (seqNext e)).2.2.1.get ⟨j, by
                  simpa [List.length_cons] using h⟩)
          have hj : j < (drainGo fuel (aerase e m) (seqNext e)).2.2.1.length := by
            simpa [List.length_cons] using h
          have hstep := ih3 j hj
          have hq : (seqNext e + j) % 4294967296 = (e + (j + 1)) % 4294967296 := by
            rw [seqNext, Nat.mod_add_mod]
            omega
          rw [hq] at hstep
          by_cases hqe : (e + (j + 1)) % 4294967296 = e
          · rw [hqe, alookup_aerase_self] at hstep
            cases hstep
          · rw [alookup_aerase_ne m hqe] at hstep
            simpa using hstep
      · intro q
        show alookup q (drainGo fuel (aerase e m) (seqNext e)).1
            = if q ∈ e :: (drainGo fuel (aerase e m) (seqNext e)).2.2.2 then none
              else alookup q m
        by_cases hqe : q = e
        · subst hqe
          rw [if_pos (List.mem_cons_self _ _)]
          by_cases hmem : q ∈ (drainGo fuel (aerase q m) (seqNext q)).2.2.2
          · rw [ih4 q, if_pos hmem]
          · rw [ih4 q, if_neg hmem]
            exact alookup_aerase_self q m
        · rw [ih4 q]
          by_cases hmem : q ∈ (drainGo fuel (aerase e m) (seqNext e)).2.2.2
          · rw [if_pos hmem, if_pos (List.mem_cons_of_mem _ hmem)]
          · rw [if_neg hmem, if_neg (by simp [hqe, hmem]),
                alookup_aerase_ne m hqe]
      · exact ih5

end Reliability

/-- C1 (amended): for a reliable data frame (s, p) processed by the
receiver (with s a u32 value, and no packet buffered at expected_next —
a reachability invariant of the receiver): if s equals expected_next,
p is appended to the ordered delivery queue, expected_next advances, and
the contiguous run of buffered packets from expected_next onward is
drained into the queue in order (drained entries leave the buffer and
nothing remains buffered at the final expected_next); if s is greater
than expected_next under the plain u32 integer comparison that the
source uses in place of the wrap-aware is_newer_than, p is buffered;
otherwise (duplicate or older) p is discarded. In every one of these
cases exactly one acknowledgement for s is produced. -/
theorem C1_receive_spec (st : Reliability.ReliableReceiver) (s : Nat) (p : Bytes)
    (hs : s < 4294967296)
    (hexp : alookup st.expected_next st.received_packets = none) :
    (s = st.expected_next →
      ∃ ds : List Bytes,
        (Reliability.receive st s p).1.ordered_buffer = st.ordered_buffer ++ p :: ds ∧
        (Reliability.receive st s p).1.expected_next = (s + 1 + ds.length) % 4294967296 ∧
        (∀ i, (h : i < ds.length) →
            alookup ((s + 1 + i) % 4294967296) st.received_packets
              = some (ds.get ⟨i, h⟩)) ∧
        (∀ i, i < ds.length →
            alookup ((s + 1 + i) % 4294967296)
              (Reliability.receive st s p).1.received_packets = none) ∧
        alookup (Reliability.receive st s p).1.expected_next
            (Reliability.receive st s p).1.received_packets = none ∧
        (Reliability.receive st s p).2
            = s :: (List.range ds.length).map (fun i => (s + 1 + i) % 4294967296)) ∧
    (s ≠ st.expected_next → st.expected_next < s →
        (Reliability.receive st s p).1.received_packets
            = ainsert s p st.received_packets ∧
        (Reliability.receive st s p).1.ordered_buffer = st.ordered_buffer ∧
        (Reliability.receive st s p).1.expected_next = st.expected_next ∧
        (Reliability.receive st s p).2 = [s]) ∧
    (s ≠ st.expected_next → ¬ st.expected_next < s →
        (Reliability.receive st s p).1.received_packets = st.received_packets ∧
        (Reliability.receive st s p).1.ordered_buffer = st.ordered_buffer ∧
        (Reliability.receive st s p).1.expected_next = st.expected_next ∧
        (Reliability.receive st s p).2 = [s]) ∧
    (Reliability.receive st s p).2.count s = 1 := by
  by_cases hcase : s = st.expected_next
  · have hexp2 : alookup s st.received_packets = none := by
      rw [hcase]
      exact hexp
    have hnext : Reliability.seqNext s < 4294967296 := Nat.mod_lt _ (by norm_num)
    obtain ⟨d1, d2, d3, d4, d5⟩ :=
      Reliability.drainGo_spec st.received_packets.length st.received_packets
        (Reliability.seqNext s) (le_refl _) hnext
    have hrecv : Reliability.receive st s p
        = ({ highest_seq_received :=
               if Reliability.isNewerThan s st.highest_seq_received
                  || st.highest_seq_received = 0
               then s else st.highest_seq_received,
             received_packets :=
               (Reliability.drainGo st.received_packets.length st.received_packets
                 (Reliability.seqNext s)).1,
             ordered_buffer := st.ordered_buffer ++ p ::
               (Reliability.drainGo st.received_packets.length st.received_packets
                 (Reliability.seqNext s)).2.2.1,
             expected_next :=
               (Reliability.drainGo st.received_packets.length st.received_packets
                 (Reliability.seqNext s)).2.1 },
           s :: (Reliability.drainGo st.received_packets.length st.received_packets
                 (Reliability.seqNext s)).2.2.2) := by
      simp only [Reliability.receive, if_pos hcase]
    have hnotmem : s ∉ (Reliability.drainGo st.received_packets.length
        st.received_packets (Reliability.seqNext s)).2.2.2 := by
      intro hmem
      rw [d2] at hmem
      obtain ⟨i, hi, hEq⟩ := List.mem_map.mp hmem
      have hlook := d3 i (List.mem_range.mp hi)
      rw [hEq, hexp2] at hlook
      cases hlook
    refine ⟨?_, ?_, ?_, ?_⟩
    · intro _
      refine ⟨(Reliability.drainGo st.received_packets.length st.received_packets
        (Reliability.seqNext s)).2.2.1, ?_, ?_, ?_, ?_, ?_, ?_⟩
      · rw [hrecv]
      · rw [hrecv]
        show (Reliability.drainGo st.received_packets.length st.received_packets
            (Reliability.seqNext s)).2.1 = _
        rw [d1]
        simp only [Reliability.seqNext, Nat.mod_add_mod]
      · intro i h
        have h3 := d3 i h
        simp only [Reliability.seqNext, Nat.mod_add_mod] at h3
        exact h3
      · intro i h
        rw [hrecv]
        show alookup ((s + 1 + i) % 4294967296)
            (Reliability.drainGo st.received_packets.length st.received_packets
              (Reliability.seqNext s)).1 = none
        have hmem : (s + 1 + i) % 4294967296
            ∈ (Reliability.drainGo st.received_packets.length st.received_packets
                (Reliability.seqNext s)).2.2.2 := by
          rw [d2]
          refine List.mem_map.mpr ⟨i, List.mem_range.mpr h, ?_⟩
          simp only [Reliability.seqNext, Nat.mod_add_mod]
        rw [d4, if_pos hmem]
      · rw [hrecv]
        exact d5
      · rw [hrecv]
        show _ = s :: _
        rw [d2]
        refine congrArg _ (List.map_congr_left ?_)
        intro i _
        simp only [Reliability.seqNext, Nat.mod_add_mod]
    · intro hne _
      exact absurd hcase hne
    · intro hne _
      exact absurd hcase hne
    · rw [hrecv]
      show ((s :: _ : List Nat)).count s = 1
      rw [List.count_cons_self, List.count_eq_zero.mpr hnotmem]
  · by_cases hlt : st.expected_next < s
    · have hrecv : Reliability.receive st s p
          = ({ st with
               highest_seq_received :=
                 if Reliability.isNewerThan s st.highest_seq_received
                    || st.highest_seq_received = 0
                 then s else st.highest_seq_received,
               received_packets := ainsert s p st.received_packets },
             [s]) := by
        simp only [Reliability.receive, if_neg hcase, if_pos hlt]
      refine ⟨fun hc => absurd hc hcase, ?_, ?_, ?_⟩
      · intro _ _
        rw [hrecv]
        exact ⟨rfl, rfl, rfl, rfl⟩
      · intro _ hnlt
        exact absurd hlt hnlt
      · rw [hrecv]
        simp
    · have hrecv : Reliability.receive st s p
          = ({ st with
               highest_seq_received :=
                 if Reliability.isNewerThan s st.highest_seq_received
                    || st.highest_seq_received = 0
                 then s else st.highest_seq_received },
             [s]) := by
        simp only [Reliability.receive, if_neg hcase, if_neg hlt]
      refine ⟨fun hc => absurd hc hcase, ?_, ?_, ?_⟩
      · intro _ hlt2
        exact absurd hlt2 hlt
      · intro _ _
        rw [hrecv]
        exact ⟨rfl, rfl, rfl, rfl⟩
      · rw [hrecv]
        simp

/-- C1 witness: the amended receive specification applied at a concrete
receiver with expected_next 1 and a packet buffered at sequence 2, so
that receiving frame 1 drains the buffered packet; exactly one ACK for
sequence 1 is produced. -/
theorem C1_receive_spec_witness :
    alookup (1 : Nat) ([(2, [9])] : List (Nat × Bytes)) = none ∧
    (Reliability.receive ⟨0, [(2, [9])], [], 1⟩ 1 [7]).2.count 1 = 1 :=
  ⟨by decide,
   (C1_receive_spec ⟨0, [(2, [9])], [], 1⟩ 1 [7] (by decide) (by decide)).2.2.2⟩

/-- C1 counterexample to the claim as stated: the source decides the
buffering case with the plain integer comparison seq.0 > expected_next.0
rather than the wrap-aware is_newer_than. At expected_next = 0xFFFFFFFF
an arriving frame with sequence 0 is newer under the wrap-aware
comparison, so the claim requires it to be buffered, but the receiver
discards it (the buffer stays empty and the queue unchanged); only the
ACK is produced. -/
theorem C1_claim_counterexample :
    Reliability.isNewerThan 0 (4294967295 : Nat) = true ∧
    (0 : Nat) ≠ (4294967295 : Nat) ∧
    (Reliability.receive ⟨0, [], [], 4294967295⟩ 0 [7]).1.received_packets = [] ∧
    (Reliability.receive ⟨0, [], [], 4294967295⟩ 0 [7]).1.ordered_buffer = [] ∧
    (Reliability.receive ⟨0, [], [], 4294967295⟩ 0 [7]).2 = [0] := by
  refine ⟨by decide, by decide, ?_, ?_, ?_⟩ <;> decide

/-- C2 counterexample to the claim as stated (quantifying over every
packet value): the concrete packet holding a string of 2^31 repeated
bytes 0x61 does not round trip, so decode of encode is not the identity
on every packet value. -/
theorem C2_claim_counterexample :
    Protocol.PacketType.from_bytes
        (Protocol.PacketType.to_bytes (.Authenticate (List.replicate 2147483648 97) []))
      ≠ .ok (.Authenticate (List.replicate 2147483648 97) []) := by
  intro hc
  rw [authenticate_big_string_decode_fails _ (List.length_replicate _ _)] at hc
  exact Except.noConfusion hc
